import Mathlib

/-!
# QtBigInt: the `BigInt` value type over GMP

A shallow embedding of `src/src/bigint.cpp`, the library version of the type,
and of the division and remainder operators of `src/bigint.cpp`, the root-level
version (namespace `Root`).

* A `BigInt` holds one GMP integer `data` (`mpz_t`).  The functions of the
  `mpz_*` interface are the external backend; each one used by the source is
  given here by its contract in the GMP manual, on the integer value that the
  `mpz_t` denotes.
* The native types `int` and `unsigned int` are 32 bits wide, `long long` and
  `unsigned long long` 64 bits.  A native value is an `Int` together with a
  range predicate; the conversions between them reduce modulo `2^32`.
* The division family of GMP raises a division by zero on a zero divisor and
  does not return; the embedding returns `Except.error Fault.divide_by_zero`.
* `std::abs(INT_MIN)` is undefined behaviour; an operator that reaches it gives
  `Except.error Fault.undefined_abs` (the shifts, `none`) and no value.
* The shift operators work on the limbs and the size field of `data`; for them
  `data` is the structure `mpz_struct`, and the loops of `mpn_rshift` and
  `mpn_lshift` are given limb by limb.
-/

namespace QtBigInt

/-! ## Native integers -/

/-- Smallest value of the 32-bit `int`. -/
def INT_MIN : Int := -2147483648

/-- Largest value of the 32-bit `int`. -/
def INT_MAX : Int := 2147483647

/-- Largest value of the 32-bit `unsigned int`. -/
def UINT_MAX : Int := 4294967295

/-- Smallest value of the 64-bit `long long`. -/
def LLONG_MIN : Int := -9223372036854775808

/-- Largest value of the 64-bit `long long`. -/
def LLONG_MAX : Int := 9223372036854775807

/-- Largest value of the 64-bit `unsigned long long`. -/
def ULLONG_MAX : Int := 18446744073709551615

/-- Values of type `int`. -/
def isInt (n : Int) : Prop := INT_MIN ≤ n ∧ n ≤ INT_MAX

/-- Values of type `unsigned int`. -/
def isUInt (n : Int) : Prop := 0 ≤ n ∧ n ≤ UINT_MAX

/-- Values of type `long long`. -/
def isLongLong (n : Int) : Prop := LLONG_MIN ≤ n ∧ n ≤ LLONG_MAX

/-- Values of type `unsigned long long`. -/
def isULongLong (n : Int) : Prop := 0 ≤ n ∧ n ≤ ULLONG_MAX

instance (n : Int) : Decidable (isInt n) := by unfold isInt; exact inferInstance
instance (n : Int) : Decidable (isUInt n) := by unfold isUInt; exact inferInstance
instance (n : Int) : Decidable (isLongLong n) := by unfold isLongLong; exact inferInstance
instance (n : Int) : Decidable (isULongLong n) := by unfold isULongLong; exact inferInstance

/-- The conversion `static_cast<unsigned int>(x)`: the value modulo `2^32`. -/
def to_uint (x : Int) : Int := x % 4294967296

/-- The conversion `static_cast<int>(x)`: the value modulo `2^32`, read as a
two's-complement 32-bit number. -/
def to_int (x : Int) : Int := (x + 2147483648) % 4294967296 - 2147483648

/-- How an operation can fail to give a value. -/
inductive Fault where
  /-- The division by zero that GMP raises on a zero divisor. -/
  | divide_by_zero
  /-- The call `std::abs(INT_MIN)`: the result does not fit in an `int` and the
  behaviour is undefined. -/
  | undefined_abs
  deriving DecidableEq, Repr

/-- The call `std::abs(x)` on an `int`: the absolute value; for `INT_MIN`, whose
absolute value is not an `int`, the behaviour is undefined and no value is
given. -/
def std_abs (x : Int) : Except Fault Int :=
  if x = INT_MIN then .error .undefined_abs
  else if x < 0 then .ok (-x) else .ok x

/-- The expression `val >> 32` on a `long long` or `unsigned long long`
(arithmetic shift: the floor of `val / 2^32`). -/
def shr32 (val : Int) : Int := val / 4294967296

/-! ## The GMP interface, on the value of an `mpz_t` -/

/-- The value after `mpz_init`. -/
def mpz_init : Int := 0

/-- The value set by `mpz_set_si(rop, op)`. -/
def mpz_set_si (op : Int) : Int := op

/-- The value set by `mpz_set_ui(rop, op)`. -/
def mpz_set_ui (op : Int) : Int := op

/-- The value set by `mpz_mul_2exp(rop, op1, op2)`: `op1 * 2^op2`. -/
def mpz_mul_2exp (op1 : Int) (op2 : Nat) : Int := op1 * 2 ^ op2

/-- The value set by `mpz_add(rop, op1, op2)`. -/
def mpz_add (op1 op2 : Int) : Int := op1 + op2

/-- The value set by `mpz_add_ui(rop, op1, op2)`. -/
def mpz_add_ui (op1 op2 : Int) : Int := op1 + op2

/-- The value set by `mpz_sub(rop, op1, op2)`. -/
def mpz_sub (op1 op2 : Int) : Int := op1 - op2

/-- The value set by `mpz_sub_ui(rop, op1, op2)`. -/
def mpz_sub_ui (op1 op2 : Int) : Int := op1 - op2

/-- The value set by `mpz_ui_sub(rop, op1, op2)`. -/
def mpz_ui_sub (op1 op2 : Int) : Int := op1 - op2

/-- The value set by `mpz_neg(rop, op)`. -/
def mpz_neg (op : Int) : Int := -op

/-- The value set by `mpz_mul(rop, op1, op2)`. -/
def mpz_mul (op1 op2 : Int) : Int := op1 * op2

/-- The value set by `mpz_mul_ui(rop, op1, op2)`. -/
def mpz_mul_ui (op1 op2 : Int) : Int := op1 * op2

/-- The quotient set by `mpz_tdiv_q(q, n, d)`: rounded towards zero; a zero
divisor raises the division by zero. -/
def mpz_tdiv_q (n d : Int) : Except Fault Int :=
  if d = 0 then .error .divide_by_zero else .ok (Int.tdiv n d)

/-- The quotient set by `mpz_tdiv_q_ui(q, n, d)`. -/
def mpz_tdiv_q_ui (n d : Int) : Except Fault Int :=
  if d = 0 then .error .divide_by_zero else .ok (Int.tdiv n d)

/-- The remainder set by `mpz_tdiv_r(r, n, d)`: it has the sign of `n`; a zero
divisor raises the division by zero. -/
def mpz_tdiv_r (n d : Int) : Except Fault Int :=
  if d = 0 then .error .divide_by_zero else .ok (Int.tmod n d)

/-- The remainder set by `mpz_tdiv_r_ui(r, n, d)`. -/
def mpz_tdiv_r_ui (n d : Int) : Except Fault Int :=
  if d = 0 then .error .divide_by_zero else .ok (Int.tmod n d)

/-- The result of `mpz_cmp(op1, op2)`: positive, zero or negative as
`op1 > op2`, `op1 == op2` or `op1 < op2`. -/
def mpz_cmp (op1 op2 : Int) : Int :=
  if op1 < op2 then -1 else if op1 = op2 then 0 else 1

/-- The result of `mpz_cmp_si(op1, op2)`. -/
def mpz_cmp_si (op1 op2 : Int) : Int := mpz_cmp op1 op2

/-- The result of `mpz_cmp_ui(op1, op2)`. -/
def mpz_cmp_ui (op1 op2 : Int) : Int := mpz_cmp op1 op2

/-! ### Conversion from and to text -/

/-- The terminator of a C string. -/
def NUL : Char := Char.ofNat 0

/-- The C string that `std::string::c_str()` points to, as `const char *`
readers see it: the characters before the first terminator. -/
def c_str (s : List Char) : List Char := s.takeWhile (fun c => c != NUL)

/-- The C library `isspace`, in the "C" locale. -/
def isspace (c : Char) : Bool :=
  c.toNat == 32 || (9 ≤ c.toNat && c.toNat ≤ 13)

/-- The digit value tables of GMP: digits, then upper-case letters from 10;
lower-case letters from 10 as well in the table for bases up to 36
(`case_sensitive = false`), from 36 in the table for bases 37 to 62; every
other character has the value 255. -/
def digit_value (case_sensitive : Bool) (c : Char) : Nat :=
  if 48 ≤ c.toNat ∧ c.toNat ≤ 57 then c.toNat - 48
  else if 65 ≤ c.toNat ∧ c.toNat ≤ 90 then c.toNat - 65 + 10
  else if 97 ≤ c.toNat ∧ c.toNat ≤ 122 then
    (if case_sensitive then c.toNat - 97 + 36 else c.toNat - 97 + 10)
  else 255

/-- The value that `mpn_set_str` gives to a sequence of digits of `base`, most
significant digit first. -/
def mpn_set_str (digits : List Nat) (base : Nat) : Nat :=
  digits.foldl (fun acc d => acc * base + d) 0

/-- The loop of `mpz_set_str` that turns the characters into digits: white space
is dropped, a character whose value is not below `base` ends the conversion
with a failure. -/
def collect_digits (case_sensitive : Bool) (base : Int) : List Char → Option (List Nat)
  | [] => some []
  | c :: rest =>
    if isspace c then collect_digits case_sensitive base rest
    else if (digit_value case_sensitive c : Int) ≥ base then none
    else (collect_digits case_sensitive base rest).map (fun ds => digit_value case_sensitive c :: ds)

/-- The base that `mpz_set_str` reads from the leading characters when it is
called with base 0, and the characters after the prefix: `0x` or `0X` for 16,
`0b` or `0B` for 2, `0` for 8, decimal otherwise. -/
def detect_base : List Char → Int × List Char
  | '0' :: 'x' :: rest => (16, rest)
  | '0' :: 'X' :: rest => (16, rest)
  | '0' :: 'b' :: rest => (2, rest)
  | '0' :: 'B' :: rest => (2, rest)
  | '0' :: rest => (8, rest)
  | str => (10, str)

/-- The call `mpz_set_str(rop, str, base)`, with `str` the characters before the
terminator: the returned status (0 when the whole string is a number in
`base`, -1 otherwise) and the value of `rop` afterwards, which a failure leaves
as it was. -/
def mpz_set_str (rop : Int) (str : List Char) (base : Int) : Int × Int :=
  if base > 62 then (-1, rop)
  else
    let case_sensitive := decide (base > 36)
    let str := str.dropWhile isspace
    let negative := decide (str.head? = some '-')
    let str := if negative then str.tail else str
    if (digit_value case_sensitive (str.headD NUL) : Int) ≥ (if base = 0 then 10 else base) then
      (-1, rop)
    else
      let detected := if base = 0 then detect_base str else (base, str)
      let str := detected.2.dropWhile (fun c => c == '0' || isspace c)
      if str = [] then (0, 0)
      else
        match collect_digits case_sensitive detected.1 str with
        | none => (-1, rop)
        | some digits =>
          let value : Int := mpn_set_str digits detected.1.toNat
          (0, if negative then -value else value)

/-- The digit characters of `mpz_get_str` for the bases 2 to 36. -/
def num_to_text_lower : List Char := "0123456789abcdefghijklmnopqrstuvwxyz".toList

/-- The digit characters of `mpz_get_str` for the bases -2 to -36. -/
def num_to_text_upper : List Char := "0123456789ABCDEFGHIJKLMNOPQRSTUVWXYZ".toList

/-- The digit characters of `mpz_get_str` for the bases 37 to 62. -/
def num_to_text_62 : List Char :=
  "0123456789ABCDEFGHIJKLMNOPQRSTUVWXYZabcdefghijklmnopqrstuvwxyz".toList

/-- The division loop behind `mpn_get_str_digits`: the digits of `n` in `base`
are put in front of `acc`, least significant first; `fuel` bounds the number
of divisions. -/
def mpn_get_str_loop (base : Nat) : Nat → Nat → List Nat → List Nat
  | 0, _, acc => acc
  | fuel + 1, n, acc =>
    if n = 0 then acc else mpn_get_str_loop base fuel (n / base) (n % base :: acc)

/-- The digits that `mpn_get_str` produces for the magnitude `n` in `base`, most
significant first; the single digit 0 for zero. -/
def mpn_get_str (base : Nat) (n : Nat) : List Nat :=
  if n = 0 then [0] else mpn_get_str_loop base n n []

/-- The base and the digit characters that `mpz_get_str` works with for the
argument `base`; `none` where it returns a null pointer. -/
def get_str_alphabet (base : Int) : Option (Nat × List Char) :=
  if base ≥ 0 then
    if base ≤ 1 then some (10, num_to_text_lower)
    else if base > 36 then (if base > 62 then none else some (base.toNat, num_to_text_62))
    else some (base.toNat, num_to_text_lower)
  else
    if -base ≤ 1 then some (10, num_to_text_upper)
    else if -base > 36 then none
    else some ((-base).toNat, num_to_text_upper)

/-- The call `mpz_get_str(nullptr, base, op)`: the text of `op` in `base`, with a
leading `-` for a negative `op`; `none` for the null pointer. -/
def mpz_get_str (base : Int) (op : Int) : Option (List Char) :=
  (get_str_alphabet base).map fun sel =>
    (if op < 0 then ['-'] else []) ++
      (mpn_get_str sel.1 op.natAbs).map (fun d => sel.2.getD d NUL)

/-- What the reading side needs from an alphabet of the writing side: the
character of each digit below `base` has that digit as its value and is not
white space, the terminator or the sign, and the digit 0 alone is written `0`. -/
def alphabet_ok (case_sensitive : Bool) (base : Nat) (text : List Char) : Prop :=
  ∀ d, d < base →
    digit_value case_sensitive (text.getD d NUL) = d ∧
    isspace (text.getD d NUL) = false ∧
    text.getD d NUL ≠ NUL ∧
    text.getD d NUL ≠ '-' ∧
    (text.getD d NUL = '0' ↔ d = 0)

/-! ## The type -/

/-- The class `BigInt`: its one data member, the GMP integer `data`. -/
structure BigInt where
  /-- The value of the member `mpz_t data`. -/
  data : Int
  deriving DecidableEq, Repr

namespace BigInt

/-! ### Constructors (`src/src/bigint.cpp`, lines 12 to 58) -/

/-- The constructor `BigInt::BigInt()`. -/
def mk0 : BigInt := ⟨mpz_init⟩

/-- The constructor `BigInt::BigInt(int val)`. -/
def ofInt (val : Int) : BigInt := ⟨mpz_set_si val⟩

/-- The constructor `BigInt::BigInt(unsigned int val)`. -/
def ofUInt (val : Int) : BigInt := ⟨mpz_set_ui val⟩

/-- The constructor `BigInt::BigInt(long long val)`. -/
def ofLongLong (val : Int) : BigInt :=
  let data := mpz_set_si (to_int (shr32 val))
  let data := mpz_mul_2exp data 32
  ⟨mpz_add_ui data (to_uint val)⟩

/-- The constructor `BigInt::BigInt(unsigned long long val)`. -/
def ofULongLong (val : Int) : BigInt :=
  let data := mpz_set_ui (to_uint (shr32 val))
  let data := mpz_mul_2exp data 32
  ⟨mpz_add_ui data (to_uint val)⟩

/-! ### Text (lines 35 to 63) -/

/-- The constructor `BigInt::BigInt(const char *str, int base)`, with `str` the
characters before the terminator: the status of `mpz_set_str` is not read. -/
def ofCStr (str : List Char) (base : Int) : BigInt :=
  ⟨(mpz_set_str mpz_init str base).2⟩

/-- The constructor `BigInt::BigInt(std::string imput, int base)`. -/
def ofString (imput : List Char) (base : Int) : BigInt := ofCStr (c_str imput) base

/-- The method `BigInt::getString(int base)`; `none` where the `std::string`
would be built from a null pointer. -/
def getString (self : BigInt) (base : Int) : Option (List Char) :=
  mpz_get_str base self.data

/-! ### Comparison (lines 484 to 555) -/

/-- The operator `==(const BigInt&, const BigInt&)`. -/
def op_eq (left right : BigInt) : Bool := mpz_cmp left.data right.data == 0

/-- The operator `==(const BigInt&, int)`. -/
def op_eq_int (left : BigInt) (right : Int) : Bool := mpz_cmp_si left.data right == 0

/-- The operator `>=(const BigInt&, int)`. -/
def op_ge_int (left : BigInt) (right : Int) : Bool := decide (mpz_cmp_si left.data right ≥ 0)

/-! ### Addition and subtraction (lines 98 to 197) -/

/-- The operator `+(BigInt, unsigned int)`. -/
def op_add_uint (left : BigInt) (right : Int) : BigInt := ⟨mpz_add_ui left.data right⟩

/-- The operator `+(BigInt, const BigInt&)`. -/
def op_add (left right : BigInt) : BigInt := ⟨mpz_add left.data right.data⟩

/-- The operator `-(BigInt, const BigInt&)`. -/
def op_sub (left right : BigInt) : BigInt := ⟨mpz_sub left.data right.data⟩

/-- The operator `-(BigInt, unsigned int)`. -/
def op_sub_uint (left : BigInt) (right : Int) : BigInt := ⟨mpz_sub_ui left.data right⟩

/-- The operator `-(unsigned int, BigInt)`. -/
def op_uint_sub (left : Int) (right : BigInt) : BigInt := ⟨mpz_ui_sub left right.data⟩

/-- The operator `+(BigInt, int)`. -/
def op_add_int (left : BigInt) (right : Int) : Except Fault BigInt :=
  if right ≥ 0 then .ok (op_add_uint left (to_uint right))
  else (std_abs right).map fun m => op_sub_uint left (to_uint m)

/-- The operator `-(BigInt, int)`. -/
def op_sub_int (left : BigInt) (right : Int) : Except Fault BigInt :=
  if right ≥ 0 then .ok (op_sub_uint left (to_uint right))
  else (std_abs right).map fun m => op_add_uint left (to_uint m)

/-- The operator `-(int, BigInt)`: the test is on `right`, the `BigInt`. -/
def op_int_sub (left : Int) (right : BigInt) : Except Fault BigInt :=
  if op_ge_int right 0 then .ok (op_uint_sub (to_uint left) right)
  else (std_abs left).map fun m => op_add_uint right (to_uint m)

/-- The unary operator `-(BigInt)`. -/
def op_neg (val : BigInt) : BigInt := ⟨mpz_neg val.data⟩

/-! ### Division (lines 201 to 233) -/

/-- The operator `/(BigInt, const BigInt&)`. -/
def op_div (left right : BigInt) : Except Fault BigInt :=
  (mpz_tdiv_q left.data right.data).map BigInt.mk

/-- The operator `/(BigInt, unsigned int)`. -/
def op_div_uint (left : BigInt) (right : Int) : Except Fault BigInt :=
  (mpz_tdiv_q_ui left.data right).map BigInt.mk

/-- The operator `/(BigInt, int)`. -/
def op_div_int (left : BigInt) (right : Int) : Except Fault BigInt :=
  if right ≥ 0 then op_div_uint left (to_uint right)
  else (std_abs right).bind fun m =>
    (op_div_uint left (to_uint m)).bind fun q => op_int_sub 0 q

/-! ### Multiplication (lines 239 to 271) -/

/-- The operator `*(BigInt, const BigInt&)`. -/
def op_mul (left right : BigInt) : BigInt := ⟨mpz_mul left.data right.data⟩

/-- The operator `*(BigInt, unsigned int)`. -/
def op_mul_uint (left : BigInt) (right : Int) : BigInt := ⟨mpz_mul_ui left.data right⟩

/-- The operator `*(BigInt, int)`. -/
def op_mul_int (left : BigInt) (right : Int) : Except Fault BigInt :=
  if right ≥ 0 then .ok (op_mul_uint left (to_uint right))
  else (std_abs right).bind fun m => op_int_sub 0 (op_mul_uint left (to_uint m))

/-! ### Remainder (lines 274 to 300) -/

/-- The operator `%(BigInt, const BigInt&)`. -/
def op_mod (left right : BigInt) : Except Fault BigInt :=
  (mpz_tdiv_r left.data right.data).map BigInt.mk

/-- The operator `%(BigInt, unsigned int)`. -/
def op_mod_uint (left : BigInt) (right : Int) : Except Fault BigInt :=
  (mpz_tdiv_r_ui left.data right).map BigInt.mk

/-- The operator `%(BigInt, int)`. -/
def op_mod_int (left : BigInt) (right : Int) : Except Fault BigInt :=
  (std_abs right).bind fun m => op_mod_uint left (to_uint m)

end BigInt

/-! ## Further functions of the GMP interface -/

/-- The remainder set by `mpz_fdiv_r(r, n, d)`: the remainder of the division
rounded towards minus infinity, with the sign of `d`; a zero divisor raises the
division by zero. -/
def mpz_fdiv_r (n d : Int) : Except Fault Int :=
  if d = 0 then .error .divide_by_zero else .ok (Int.fmod n d)

/-- The value set by `mpz_mod(r, n, d)`: `n mod d`, never negative, the sign of
`d` being ignored; a zero divisor raises the division by zero. -/
def mpz_mod (n d : Int) : Except Fault Int :=
  if d = 0 then .error .divide_by_zero else .ok (Int.emod n d)

namespace BigInt

/-! ### Assignment and the in-place operators (lines 92 to 300) -/

/-- The operator `BigInt::operator =(const BigInt &val)`: the new value of the
receiver. -/
def op_assign (_self val : BigInt) : BigInt := ⟨val.data⟩

/-- The operator `+=(BigInt&, unsigned int)`: the new value of `left`, which the
returned reference denotes (so for every in-place operator below). -/
def op_add_assign_uint (left : BigInt) (right : Int) : BigInt := ⟨mpz_add_ui left.data right⟩

/-- The operator `-=(BigInt&, unsigned int)`. -/
def op_sub_assign_uint (left : BigInt) (right : Int) : BigInt := ⟨mpz_sub_ui left.data right⟩

/-- The operator `+=(BigInt&, int)`. -/
def op_add_assign_int (left : BigInt) (right : Int) : Except Fault BigInt :=
  if right ≥ 0 then .ok (op_add_assign_uint left (to_uint right))
  else (std_abs right).map fun m => op_sub_assign_uint left (to_uint m)

/-- The operator `-=(BigInt&, int)`. -/
def op_sub_assign_int (left : BigInt) (right : Int) : Except Fault BigInt :=
  if right ≥ 0 then .ok (op_sub_assign_uint left (to_uint right))
  else (std_abs right).map fun m => op_add_assign_uint left (to_uint m)

/-- The operator `-=(unsigned int, BigInt&)`: the new value of `right`. -/
def op_uint_sub_assign (left : Int) (right : BigInt) : BigInt :=
  op_assign right (op_uint_sub left right)

/-- The operator `-=(int, BigInt&)`: the new value of `right`; the test is on
`left`, the `int`. -/
def op_int_sub_assign (left : Int) (right : BigInt) : Except Fault BigInt :=
  if left ≥ 0 then .ok (op_uint_sub_assign (to_uint left) right)
  else (std_abs left).map fun m => op_assign right (op_add_uint right (to_uint m))

/-- The operator `/=(BigInt&, unsigned int)`. -/
def op_div_assign_uint (left : BigInt) (right : Int) : Except Fault BigInt :=
  (mpz_tdiv_q_ui left.data right).map BigInt.mk

/-- The operator `/=(BigInt&, int)`. -/
def op_div_assign_int (left : BigInt) (right : Int) : Except Fault BigInt :=
  if right ≥ 0 then op_div_assign_uint left (to_uint right)
  else (std_abs right).bind fun m =>
    (op_div_assign_uint left (to_uint m)).bind fun q => op_int_sub_assign 0 q

/-- The operator `*=(BigInt&, unsigned int)`. -/
def op_mul_assign_uint (left : BigInt) (right : Int) : BigInt := ⟨mpz_mul_ui left.data right⟩

/-- The operator `*=(BigInt&, int)`. -/
def op_mul_assign_int (left : BigInt) (right : Int) : Except Fault BigInt :=
  if right ≥ 0 then .ok (op_mul_assign_uint left (to_uint right))
  else (std_abs right).bind fun m =>
    op_int_sub_assign 0 (op_mul_assign_uint left (to_uint m))

/-! ### Increment and decrement (lines 304 to 324)

Each one gives the receiver afterwards and the value returned. -/

/-- The prefix operator `BigInt::operator--()`. -/
def op_pre_dec (self : BigInt) : Except Fault (BigInt × BigInt) :=
  (op_sub_assign_int self 1).map fun self => (self, self)

/-- The prefix operator `BigInt::operator++()`. -/
def op_pre_inc (self : BigInt) : Except Fault (BigInt × BigInt) :=
  (op_add_assign_int self 1).map fun self => (self, self)

/-- The postfix operator `BigInt::operator--(int)`. -/
def op_post_dec (self : BigInt) : Except Fault (BigInt × BigInt) :=
  let temp : BigInt := ⟨self.data⟩
  (op_pre_dec self).map fun r => (r.1, temp)

/-- The postfix operator `BigInt::operator++(int)`. -/
def op_post_inc (self : BigInt) : Except Fault (BigInt × BigInt) :=
  let temp : BigInt := ⟨self.data⟩
  (op_pre_inc self).map fun r => (r.1, temp)

/-! ### The other comparisons (lines 484 to 555) -/

/-- The operator `==(const BigInt&, unsigned int)`. -/
def op_eq_uint (left : BigInt) (right : Int) : Bool := mpz_cmp_ui left.data right == 0

/-- The operator `!=(const BigInt&, const BigInt&)`. -/
def op_ne (left right : BigInt) : Bool := !(op_eq left right)

/-- The operator `!=(const BigInt&, unsigned int)`. -/
def op_ne_uint (left : BigInt) (right : Int) : Bool := !(op_eq_uint left right)

/-- The operator `!=(const BigInt&, int)`. -/
def op_ne_int (left : BigInt) (right : Int) : Bool := !(op_eq_int left right)

/-- The operator `<(const BigInt&, const BigInt&)`. -/
def op_lt (left right : BigInt) : Bool := decide (mpz_cmp left.data right.data < 0)

/-- The operator `<(const BigInt&, unsigned int)`. -/
def op_lt_uint (left : BigInt) (right : Int) : Bool := decide (mpz_cmp_ui left.data right < 0)

/-- The operator `<(const BigInt&, int)`. -/
def op_lt_int (left : BigInt) (right : Int) : Bool := decide (mpz_cmp_si left.data right < 0)

/-- The operator `>(const BigInt&, const BigInt&)`. -/
def op_gt (left right : BigInt) : Bool := decide (mpz_cmp left.data right.data > 0)

/-- The operator `>(const BigInt&, unsigned int)`. -/
def op_gt_uint (left : BigInt) (right : Int) : Bool := decide (mpz_cmp_ui left.data right > 0)

/-- The operator `>(const BigInt&, int)`. -/
def op_gt_int (left : BigInt) (right : Int) : Bool := decide (mpz_cmp_si left.data right > 0)

/-- The operator `<=(const BigInt&, const BigInt&)`. -/
def op_le (left right : BigInt) : Bool := decide (mpz_cmp left.data right.data ≤ 0)

/-- The operator `<=(const BigInt&, unsigned int)`. -/
def op_le_uint (left : BigInt) (right : Int) : Bool := decide (mpz_cmp_ui left.data right ≤ 0)

/-- The operator `<=(const BigInt&, int)`. -/
def op_le_int (left : BigInt) (right : Int) : Bool := decide (mpz_cmp_si left.data right ≤ 0)

/-- The operator `>=(const BigInt&, const BigInt&)`. -/
def op_ge (left right : BigInt) : Bool := decide (mpz_cmp left.data right.data ≥ 0)

/-- The operator `>=(const BigInt&, unsigned int)`. -/
def op_ge_uint (left : BigInt) (right : Int) : Bool := decide (mpz_cmp_ui left.data right ≥ 0)

end BigInt

/-! ## The root-level version of the type (`src/bigint.cpp`) -/

namespace Root

/-- The operator `+(BigInt, const BigInt&)` of `src/bigint.cpp`. -/
def op_add (left right : BigInt) : BigInt := ⟨mpz_add left.data right.data⟩

/-- The operator `*(BigInt, const BigInt&)` of `src/bigint.cpp`. -/
def op_mul (left right : BigInt) : BigInt := ⟨mpz_mul left.data right.data⟩

/-- The operator `/(BigInt, const BigInt&)` of `src/bigint.cpp`: it calls
`mpz_fdiv_r`. -/
def op_div (left right : BigInt) : Except Fault BigInt :=
  (mpz_fdiv_r left.data right.data).map BigInt.mk

/-- The operator `%(BigInt, const BigInt&)` of `src/bigint.cpp`: it calls
`mpz_mod`. -/
def op_mod (left right : BigInt) : Except Fault BigInt :=
  (mpz_mod left.data right.data).map BigInt.mk

/-- The operator `==(const BigInt&, const BigInt&)` of `src/bigint.cpp`. -/
def op_eq (left right : BigInt) : Bool := mpz_cmp left.data right.data == 0

end Root

/-! ## Powers -/

/-- The square-and-multiply loop of a modular power: `r * b ^ e` modulo `mod`,
every product being reduced at once; `fuel` bounds the number of halvings of
the exponent. -/
def mpz_powm_loop (mod : Int) : Nat → Int → Nat → Int → Int
  | 0, _, _, r => r
  | fuel + 1, b, e, r =>
    if e = 0 then r
    else mpz_powm_loop mod fuel ((b * b) % mod) (e / 2) (if e % 2 = 1 then (r * b) % mod else r)

/-- The value set by `mpz_powm(rop, base, exp, mod)`: `base` raised to `exp`
modulo `mod`.  A zero `mod` raises the division by zero; a negative `exp` is
taken on the inverse of `base` modulo `mod`, and raises the division by zero
when there is none. -/
def mpz_powm (base exp mod : Int) : Except Fault Int :=
  if mod = 0 then .error .divide_by_zero
  else if exp ≥ 0 then
    .ok (mpz_powm_loop mod exp.toNat (base % mod) exp.toNat (1 % mod))
  else if Int.gcd base mod = 1 then
    .ok (mpz_powm_loop mod (-exp).toNat (Int.gcdA base mod % mod) (-exp).toNat (1 % mod))
  else .error .divide_by_zero

/-- Modelled from the spec: the default argument of `base` in the declaration
`BigInt(std::string imput, int base)` of `bigint.h`, a file that is not among
the sources; the spec has `bigPow10` parse its string in base 10. -/
def default_base : Int := 10

namespace BigInt

/-- The method `BigInt::powm(const BigInt &pow, const BigInt &mod)`: the new
value of the receiver, which the returned reference denotes. -/
def powm (self pow mod : BigInt) : Except Fault BigInt :=
  (mpz_powm self.data pow.data mod.data).map BigInt.mk

/-- The static method `BigInt::bigPow10(unsigned int pow)`: the string `1`
followed by `pow` characters `0`, converted by the constructor from
`std::string`. -/
def bigPow10 (pow : Int) : BigInt :=
  ofString ('1' :: List.replicate pow.toNat '0') default_base

end BigInt

/-! ## The representation of an `mpz_t` and the `mpn` shifts

The shift operators of the source do not call an `mpz` function: they pass the
limb array and the size field of `data` to `mpn_rshift` and `mpn_lshift`.  For
them `data` is the structure itself.  `w` is the number of bits of a limb
(`GMP_NUMB_BITS`, 64 or 32). -/

/-- The structure `__mpz_struct` of GMP, without `_mp_alloc`: `_mp_size` is the
number of limbs in use, negative for a negative number and 0 for zero; `_mp_d`
the allocated limbs, least significant first. -/
structure mpz_struct where
  /-- The field `_mp_size`. -/
  _mp_size : Int
  /-- The limbs at `_mp_d`. -/
  _mp_d : List Nat
  deriving DecidableEq, Repr

/-- The number that a sequence of limbs of `w` bits denotes, least significant
limb first. -/
def limbs_value (w : Nat) : List Nat → Nat
  | [] => 0
  | x :: rest => x + 2 ^ w * limbs_value w rest

/-- The integer that the limbs in use and the sign of `_mp_size` denote. -/
def mpz_struct.value (w : Nat) (z : mpz_struct) : Int :=
  if z._mp_size < 0 then -(limbs_value w (z._mp_d.take z._mp_size.natAbs) : Int)
  else (limbs_value w (z._mp_d.take z._mp_size.natAbs) : Int)

/-- The form that every `mpz` function leaves and expects: each limb below
`2^w`, the limbs in use allocated, and the most significant limb in use not
zero (so that zero has `_mp_size = 0`). -/
def mpz_struct.normalized (w : Nat) (z : mpz_struct) : Prop :=
  (∀ x ∈ z._mp_d, x < 2 ^ w) ∧ z._mp_size.natAbs ≤ z._mp_d.length ∧
  (z._mp_size ≠ 0 → z._mp_d.getD (z._mp_size.natAbs - 1) 0 ≠ 0)

instance (w : Nat) (z : mpz_struct) : Decidable (z.normalized w) := by
  unfold mpz_struct.normalized; exact inferInstance

/-- The limbs that the loop of `mpn_rshift` writes for the limbs `{sp, n}` and
the count `cnt`: each limb is its own high part, with the low bits of the next
limb above it; the last one is shifted alone. -/
def mpn_rshift_limbs (w cnt : Nat) : List Nat → List Nat
  | [] => []
  | [x] => [x >>> cnt]
  | x :: y :: rest =>
    ((x >>> cnt) ||| ((y <<< (w - cnt)) % 2 ^ w)) :: mpn_rshift_limbs w cnt (y :: rest)

/-- The limbs that the loop of `mpn_lshift` writes for the limbs `{sp, n}` and
the count `cnt`: each limb is its own low part moved up, with the high bits of
the limb `below` it; the bits that leave the last limb are the return value of
`mpn_lshift` and are not written. -/
def mpn_lshift_limbs (w cnt : Nat) (below : Nat) : List Nat → List Nat
  | [] => []
  | x :: rest =>
    (((x <<< cnt) % 2 ^ w) ||| (below >>> (w - cnt))) :: mpn_lshift_limbs w cnt x rest

/-- The call `mpn_rshift(rp, sp, n, count)` with `rp == sp`: the limbs at `sp`
afterwards.  GMP requires `n >= 1` and `1 <= count < w`, and the `n` limbs have
to be there; `none` where the call is undefined. -/
def mpn_rshift (w : Nat) (sp : List Nat) (n count : Int) : Option (List Nat) :=
  if 1 ≤ n ∧ n ≤ sp.length ∧ 1 ≤ count ∧ count < w then
    some (mpn_rshift_limbs w count.toNat (sp.take n.toNat) ++ sp.drop n.toNat)
  else none

/-- The call `mpn_lshift(rp, sp, n, count)` with `rp == sp`: the limbs at `sp`
afterwards, under the same requirements. -/
def mpn_lshift (w : Nat) (sp : List Nat) (n count : Int) : Option (List Nat) :=
  if 1 ≤ n ∧ n ≤ sp.length ∧ 1 ≤ count ∧ count < w then
    some (mpn_lshift_limbs w count.toNat 0 (sp.take n.toNat) ++ sp.drop n.toNat)
  else none

/-- The function `_mpz_cmp_si` behind `mpz_cmp_si(u, v)`, on the structure: the
sizes decide unless both are the same and not zero; then the lowest limb is
compared with `|v|`. -/
def mpz_cmp_si_struct (u : mpz_struct) (v_digit : Int) : Int :=
  let usize := u._mp_size
  let vsize : Int := (if v_digit > 0 then 1 else 0) - (if v_digit < 0 then 1 else 0)
  if usize = 0 ∨ usize ≠ vsize then usize - vsize
  else
    let u_digit : Int := u._mp_d.headD 0
    let absv_digit : Int := |v_digit|
    if u_digit = absv_digit then 0
    else if u_digit > absv_digit then usize else -usize

/-- The function `mpn_cmp` on two limb sequences of the same length, given most
significant limb first. -/
def mpn_cmp : List Nat → List Nat → Int
  | x :: xs, y :: ys => if x = y then mpn_cmp xs ys else if x > y then 1 else -1
  | _, _ => 0

/-- The function `mpz_cmp(u, v)` on the structures: the difference of the sizes
when they differ, the comparison of the limbs otherwise. -/
def mpz_cmp_struct (u v : mpz_struct) : Int :=
  let usize := u._mp_size
  let vsize := v._mp_size
  let dsize := usize - vsize
  if dsize ≠ 0 then dsize
  else
    let asize := usize.natAbs
    let cmp := mpn_cmp (u._mp_d.take asize).reverse (v._mp_d.take asize).reverse
    if usize ≥ 0 then cmp else -cmp

/-- The structure that `mpz_init` followed by `mpz_set_si(rop, 0)` leaves: the
`BigInt(0)` of the source. -/
def mpz_struct_zero : mpz_struct := { _mp_size := 0, _mp_d := [0] }

namespace BigInt

/-! ### Shifts (lines 328 to 391), on `data` as a structure -/

/-- The operator `>>(BigInt, unsigned int)`: `mpn_rshift` on the limbs of
`left.data`, with `_mp_size` for the number of limbs; `_mp_size` is not
written. -/
def op_shr_uint (w : Nat) (left : mpz_struct) (right : Int) : Option mpz_struct :=
  (mpn_rshift w left._mp_d left._mp_size right).map
    fun d => { _mp_size := left._mp_size, _mp_d := d }

/-- The operator `<<(BigInt, unsigned int)`: `mpn_lshift` on the limbs of
`left.data`; its return value, the bits shifted out, is dropped and `_mp_size`
is not written. -/
def op_shl_uint (w : Nat) (left : mpz_struct) (right : Int) : Option mpz_struct :=
  (mpn_lshift w left._mp_d left._mp_size (to_uint right)).map
    fun d => { _mp_size := left._mp_size, _mp_d := d }

/-- The operator `<<=(BigInt&, unsigned int)`: the new `left.data`. -/
def op_shl_assign_uint (w : Nat) (left : mpz_struct) (right : Int) : Option mpz_struct :=
  (mpn_lshift w left._mp_d left._mp_size (to_uint right)).map
    fun d => { _mp_size := left._mp_size, _mp_d := d }

/-- The operator `==(const BigInt&, int)`, on `left.data` as a structure. -/
def op_eq_int_struct (left : mpz_struct) (right : Int) : Bool :=
  mpz_cmp_si_struct left right == 0

/-- The operator `==(const BigInt&, const BigInt&)`, on the structures. -/
def op_eq_struct (left right : mpz_struct) : Bool :=
  mpz_cmp_struct left right == 0

end BigInt

deriving instance DecidableEq for Except

/-! # Properties -/

open BigInt

/-! ## Facts about the truncating division of the backend -/

theorem natAbs_tmod (a b : Int) : (a.tmod b).natAbs = a.natAbs % b.natAbs := by
  cases a <;> cases b <;> simp [Int.tmod] <;> rfl

theorem tmod_nonpos (a b : Int) (h : a ≤ 0) : a.tmod b ≤ 0 := by
  have hna : (0 : Int) ≤ -a := by omega
  have := Int.tmod_nonneg b hna
  have h2 : (-a).tmod b = -(a.tmod b) := by
    rw [Int.tmod_def, Int.tmod_def, Int.neg_tdiv]; ring
  omega

theorem abs_tmod_lt (a b : Int) (hb : b ≠ 0) : |a.tmod b| < |b| := by
  have h := natAbs_tmod a b
  have hpos : 0 < b.natAbs := Int.natAbs_pos.mpr hb
  have := Nat.mod_lt a.natAbs hpos
  rw [Int.abs_eq_natAbs, Int.abs_eq_natAbs, h]
  exact_mod_cast this

theorem abs_tdiv_mul_le (a b : Int) : |a.tdiv b * b| ≤ |a| := by
  rw [Int.abs_eq_natAbs, Int.abs_eq_natAbs, Int.natAbs_mul, Int.natAbs_tdiv]
  have : a.natAbs / b.natAbs * b.natAbs ≤ a.natAbs := Nat.div_mul_le_self _ _
  exact_mod_cast this

theorem tmod_zero_or_sign (a b : Int) :
    a.tmod b = 0 ∨ Int.sign (a.tmod b) = Int.sign a := by
  rcases lt_trichotomy a 0 with ha | ha | ha
  · have h1 := tmod_nonpos a b (le_of_lt ha)
    rcases eq_or_lt_of_le h1 with h | h
    · exact Or.inl h
    · exact Or.inr (by rw [Int.sign_eq_neg_one_of_neg h, Int.sign_eq_neg_one_of_neg ha])
  · subst ha; exact Or.inl (Int.zero_tmod b)
  · have h1 := Int.tmod_nonneg b (le_of_lt ha)
    rcases eq_or_lt_of_le h1 with h | h
    · exact Or.inl h.symm
    · exact Or.inr (by rw [Int.sign_eq_one_of_pos h, Int.sign_eq_one_of_pos ha])

/-- Two `BigInt`s with the same `data` are the same. -/
theorem eq_of_data {x y : BigInt} (h : x.data = y.data) : x = y := by
  cases x; cases y; simp only at h; rw [h]

/-! ## Native conversions on their ranges -/

theorem to_uint_of_nonneg (n : Int) (h0 : 0 ≤ n) (hn : isInt n) : to_uint n = n := by
  unfold isInt INT_MIN INT_MAX at hn
  unfold to_uint
  omega

/-- The call `std::abs(n)` for a negative `int` other than `INT_MIN`. -/
theorem std_abs_of_neg (n : Int) (h0 : n < 0) (hmin : n ≠ INT_MIN) : std_abs n = .ok (-n) := by
  unfold std_abs
  rw [if_neg hmin, if_pos h0]

/-- The call `std::abs(n)` for an `int` that is not negative. -/
theorem std_abs_of_nonneg (n : Int) (h0 : 0 ≤ n) : std_abs n = .ok n := by
  have hmin : n ≠ INT_MIN := by unfold INT_MIN; omega
  have hlt : ¬ n < 0 := not_lt.mpr h0
  unfold std_abs
  rw [if_neg hmin, if_neg hlt]

/-- The call `std::abs(INT_MIN)` gives no value. -/
theorem std_abs_INT_MIN : std_abs INT_MIN = .error .undefined_abs := rfl

theorem to_uint_neg_of_neg (n : Int) (h0 : n < 0) (hn : isInt n) : to_uint (-n) = -n := by
  unfold isInt INT_MIN INT_MAX at hn
  unfold to_uint
  omega

/-! ## What the operators with an `int` operand compute -/

/-- The value of `left - right` for `operator -(int, BigInt)`, for a `left` other
than `INT_MIN`. -/
theorem op_int_sub_data (left : Int) (right : BigInt) (hl : isInt left) (hmin : left ≠ INT_MIN) :
    op_int_sub left right =
      .ok ⟨if 0 ≤ right.data then left % 4294967296 - right.data else right.data + |left|⟩ := by
  by_cases h : 0 ≤ right.data
  · have hge : op_ge_int right 0 = true := by
      unfold op_ge_int mpz_cmp_si mpz_cmp
      by_cases h2 : right.data = 0
      · simp [h2]
      · have h1 : ¬ right.data < 0 := by omega
        simp [h1, h2]
    unfold op_int_sub
    rw [if_pos hge, if_pos h]
    rfl
  · have h1 : right.data < 0 := by omega
    have hge : ¬ (op_ge_int right 0 = true) := by
      unfold op_ge_int mpz_cmp_si mpz_cmp
      simp [h1]
    unfold op_int_sub
    rw [if_neg hge, if_neg h]
    by_cases h3 : left < 0
    · rw [std_abs_of_neg left h3 hmin, abs_of_neg h3]
      show Except.ok (op_add_uint right (to_uint (-left))) = _
      rw [to_uint_neg_of_neg left h3 hl]
      rfl
    · have h4 : 0 ≤ left := not_lt.mp h3
      rw [std_abs_of_nonneg left h4, abs_of_nonneg h4]
      show Except.ok (op_add_uint right (to_uint left)) = _
      rw [to_uint_of_nonneg left h4 hl]
      rfl

/-- The value of `0 - right` for `operator -(int, BigInt)`: never negative-to-positive. -/
theorem op_int_sub_zero (right : BigInt) :
    op_int_sub 0 right = .ok ⟨-|right.data|⟩ := by
  rw [op_int_sub_data 0 right (by decide) (by decide)]
  by_cases h : 0 ≤ right.data
  · rw [if_pos h, abs_of_nonneg h]; simp
  · have h1 : right.data < 0 := not_le.mp h
    rw [if_neg h, abs_of_neg h1]; simp

/-! ## Digits and their value -/

theorem foldl_digits_init (base : Nat) (l : List Nat) : ∀ init : Nat,
    l.foldl (fun acc d => acc * base + d) init =
      init * base ^ l.length + l.foldl (fun acc d => acc * base + d) 0 := by
  induction l with
  | nil => intro init; simp
  | cons d l ih =>
    intro init
    simp only [List.foldl_cons, List.length_cons]
    rw [ih (init * base + d), ih (0 * base + d)]
    ring

theorem mpn_set_str_cons (base d : Nat) (l : List Nat) :
    mpn_set_str (d :: l) base = d * base ^ l.length + mpn_set_str l base := by
  unfold mpn_set_str
  simp only [List.foldl_cons]
  rw [foldl_digits_init]
  ring

theorem mpn_get_str_loop_zero (base fuel : Nat) (acc : List Nat) :
    mpn_get_str_loop base fuel 0 acc = acc := by
  cases fuel <;> simp [mpn_get_str_loop]

theorem mpn_get_str_loop_value (base : Nat) (hb : 2 ≤ base) : ∀ (fuel n : Nat) (acc : List Nat),
    n ≤ fuel →
    mpn_set_str (mpn_get_str_loop base fuel n acc) base =
      n * base ^ acc.length + mpn_set_str acc base := by
  intro fuel
  induction fuel with
  | zero =>
    intro n acc hn
    have : n = 0 := by omega
    subst this
    simp [mpn_get_str_loop]
  | succ fuel ih =>
    intro n acc hn
    by_cases h0 : n = 0
    · subst h0; simp [mpn_get_str_loop]
    · have hlt : n / base < n := Nat.div_lt_self (by omega) (by omega)
      simp only [mpn_get_str_loop, if_neg h0]
      rw [ih (n / base) (n % base :: acc) (by omega), mpn_set_str_cons, List.length_cons]
      have hdm : n / base * base + n % base = n := by
        rw [mul_comm]; exact Nat.div_add_mod n base
      calc n / base * base ^ (acc.length + 1) + (n % base * base ^ acc.length + mpn_set_str acc base)
          = (n / base * base + n % base) * base ^ acc.length + mpn_set_str acc base := by ring
        _ = n * base ^ acc.length + mpn_set_str acc base := by rw [hdm]

theorem mpn_get_str_loop_lt (base : Nat) (hb : 2 ≤ base) : ∀ (fuel n : Nat) (acc : List Nat),
    (∀ d ∈ acc, d < base) → ∀ d ∈ mpn_get_str_loop base fuel n acc, d < base := by
  intro fuel
  induction fuel with
  | zero => intro n acc hacc; simpa [mpn_get_str_loop] using hacc
  | succ fuel ih =>
    intro n acc hacc
    by_cases h0 : n = 0
    · subst h0; simpa [mpn_get_str_loop] using hacc
    · simp only [mpn_get_str_loop, if_neg h0]
      apply ih
      intro d hd
      rcases List.mem_cons.mp hd with h | h
      · rw [h]; exact Nat.mod_lt _ (by omega)
      · exact hacc d h

theorem mpn_get_str_loop_head (base : Nat) (hb : 2 ≤ base) : ∀ (fuel n : Nat) (acc : List Nat),
    n ≤ fuel → n ≠ 0 →
    ∃ d rest, mpn_get_str_loop base fuel n acc = d :: rest ∧ d ≠ 0 := by
  intro fuel
  induction fuel with
  | zero => intro n acc hn h0; omega
  | succ fuel ih =>
    intro n acc hn h0
    have hlt : n / base < n := Nat.div_lt_self (by omega) (by omega)
    simp only [mpn_get_str_loop, if_neg h0]
    by_cases hq : n / base = 0
    · rw [hq, mpn_get_str_loop_zero]
      refine ⟨n % base, acc, rfl, ?_⟩
      have := Nat.div_add_mod n base
      rw [hq] at this
      omega
    · exact ih (n / base) (n % base :: acc) (by omega) hq

/-- The digits of `mpn_get_str` have the value of the magnitude. -/
theorem mpn_set_str_get_str (base n : Nat) (hb : 2 ≤ base) :
    mpn_set_str (mpn_get_str base n) base = n := by
  unfold mpn_get_str
  by_cases h0 : n = 0
  · subst h0; simp [mpn_set_str]
  · rw [if_neg h0, mpn_get_str_loop_value base hb n n [] (le_refl n)]
    simp [mpn_set_str]

theorem mpn_get_str_lt (base n : Nat) (hb : 2 ≤ base) :
    ∀ d ∈ mpn_get_str base n, d < base := by
  unfold mpn_get_str
  by_cases h0 : n = 0
  · subst h0
    intro d hd
    simp only [if_true, List.mem_singleton] at hd
    omega
  · rw [if_neg h0]
    exact mpn_get_str_loop_lt base hb n n [] (by simp)

theorem mpn_get_str_head (base n : Nat) (hb : 2 ≤ base) (h0 : n ≠ 0) :
    ∃ d rest, mpn_get_str base n = d :: rest ∧ d ≠ 0 := by
  unfold mpn_get_str
  rw [if_neg h0]
  exact mpn_get_str_loop_head base hb n n [] (le_refl n) h0

/-! ## The digit characters -/

theorem num_to_text_lower_spec : ∀ d, d < 36 →
    digit_value false (num_to_text_lower.getD d NUL) = d ∧
    isspace (num_to_text_lower.getD d NUL) = false ∧
    num_to_text_lower.getD d NUL ≠ NUL ∧
    num_to_text_lower.getD d NUL ≠ '-' ∧
    (num_to_text_lower.getD d NUL = '0' ↔ d = 0) := by
  decide

theorem num_to_text_62_spec : ∀ d, d < 62 →
    digit_value true (num_to_text_62.getD d NUL) = d ∧
    isspace (num_to_text_62.getD d NUL) = false ∧
    num_to_text_62.getD d NUL ≠ NUL ∧
    num_to_text_62.getD d NUL ≠ '-' ∧
    (num_to_text_62.getD d NUL = '0' ↔ d = 0) := by
  decide

/-- For a base from 2 to 62, `mpz_get_str` writes with an alphabet that
`mpz_set_str` reads back digit by digit. -/
theorem get_str_alphabet_ok (base : Int) (h2 : 2 ≤ base) (h62 : base ≤ 62) :
    ∃ text, get_str_alphabet base = some (base.toNat, text) ∧
      alphabet_ok (decide (base > 36)) base.toNat text := by
  unfold get_str_alphabet
  have h0 : base ≥ 0 := by omega
  have h1 : ¬ base ≤ 1 := by omega
  have h3 : ¬ base > 62 := by omega
  rw [if_pos h0, if_neg h1]
  by_cases h36 : base > 36
  · rw [if_pos h36, if_neg h3]
    refine ⟨num_to_text_62, rfl, ?_⟩
    intro d hd
    have : decide (base > 36) = true := by simp [h36]
    rw [this]
    exact num_to_text_62_spec d (by omega)
  · rw [if_neg h36]
    refine ⟨num_to_text_lower, rfl, ?_⟩
    intro d hd
    have : decide (base > 36) = false := by simp [h36]
    rw [this]
    exact num_to_text_lower_spec d (by omega)

theorem collect_digits_map (cs : Bool) (base : Int) (text : List Char)
    (hok : alphabet_ok cs base.toNat text) : ∀ ds : List Nat, (∀ d ∈ ds, d < base.toNat) →
    collect_digits cs base (ds.map (fun d => text.getD d NUL)) = some ds := by
  intro ds
  induction ds with
  | nil => intro _; rfl
  | cons d ds ih =>
    intro h
    have hd : d < base.toNat := h d (List.mem_cons_self _ _)
    obtain ⟨h1, h2, -, -, -⟩ := hok d hd
    have h3 : ¬ ((digit_value cs (text.getD d NUL) : Int) ≥ base) := by
      rw [h1]; omega
    simp only [List.map_cons, collect_digits, h2, Bool.false_eq_true, if_false, h3]
    rw [ih (fun e he => h e (List.mem_cons_of_mem _ he)), h1]
    rfl

/-- `mpz_set_str` on a sign and digits without a leading zero or white space. -/
theorem mpz_set_str_clean (rop : Int) (neg : Bool) (c0 : Char) (rest : List Char)
    (ds : List Nat) (base : Int) (h2 : 2 ≤ base) (h62 : base ≤ 62)
    (hs : isspace c0 = false) (hm : c0 ≠ '-') (hz : c0 ≠ '0')
    (hds : collect_digits (decide (base > 36)) base (c0 :: rest) = some ds) :
    mpz_set_str rop ((if neg then ['-'] else []) ++ c0 :: rest) base =
      (0, if neg then -(mpn_set_str ds base.toNat : Int) else (mpn_set_str ds base.toNat : Int)) := by
  have hb : base ≠ 0 := by omega
  have h62' : ¬ base > 62 := by omega
  have hv : ¬ ((digit_value (decide (base > 36)) c0 : Int) ≥ base) := by
    intro hv
    simp only [collect_digits, hs, Bool.false_eq_true, if_false, hv, if_true] at hds
    exact absurd hds (by simp)
  have hc0 : (c0 == '0' || isspace c0) = false := by
    rw [hs, Bool.or_false]; simpa using hz
  have hdrop : List.dropWhile (fun c => c == '0' || isspace c) (c0 :: rest) = c0 :: rest := by
    rw [List.dropWhile_cons_of_neg (by rw [hc0]; simp)]
  have hsp : List.dropWhile isspace (c0 :: rest) = c0 :: rest := by
    rw [List.dropWhile_cons_of_neg (by rw [hs]; simp)]
  unfold mpz_set_str
  rw [if_neg h62']
  cases neg with
  | false =>
    simp only [Bool.false_eq_true, if_false, List.nil_append, hsp, List.head?_cons,
      Option.some.injEq, hm, decide_False, List.headD_cons, if_neg hv, if_neg hb, hdrop,
      hds]
    simp
  | true =>
    have hsp2 : List.dropWhile isspace ('-' :: c0 :: rest) = '-' :: c0 :: rest := by
      rw [List.dropWhile_cons_of_neg (by decide)]
    simp only [if_true, List.singleton_append, hsp2, List.head?_cons, decide_True,
      List.tail_cons, List.headD_cons, if_neg hv, if_neg hb, hdrop, hds]
    simp

/-- `mpz_set_str` on the text `0`. -/
theorem mpz_set_str_zero (rop : Int) (base : Int) (h2 : 2 ≤ base) (h62 : base ≤ 62) :
    mpz_set_str rop ['0'] base = (0, 0) := by
  have hb : base ≠ 0 := by omega
  have h62' : ¬ base > 62 := by omega
  have hv : ¬ ((digit_value (decide (base > 36)) '0' : Int) ≥ base) := by
    have : (digit_value (decide (base > 36)) '0' : Int) = 0 := by simp [digit_value]
    omega
  unfold mpz_set_str
  rw [if_neg h62']
  have hsp : List.dropWhile isspace ['0'] = ['0'] := by decide
  have hdz : List.dropWhile (fun c => c == '0' || isspace c) ['0'] = [] := by decide
  simp only [hsp, List.head?_cons, Option.some.injEq, List.headD_cons, if_neg hb]
  simp only [show ('0' = '-') = False from by decide, decide_False, Bool.false_eq_true,
    if_false, if_neg hv, hdz, if_true]
  have hh : (['0'] : List Char).headD NUL = '0' := rfl
  rw [hh, if_neg hv]

theorem c_str_of_no_NUL (s : List Char) (h : ∀ c ∈ s, c ≠ NUL) : c_str s = s := by
  unfold c_str
  rw [List.takeWhile_eq_self_iff]
  intro c hc
  simpa using h c hc

/-! ## Division and remainder of two `BigInt`s -/

/-- C1: for every `a` and every nonzero `b`, `a / b` and `a % b` return values
`q` and `r` with `a == q * b + r`; `q` is rounded toward zero (`|q * b| ≤ |a|`
and `a - q * b` is smaller than `b` in magnitude, the sign of `q` following the
signs of `a` and `b`); and `r` is zero or has the sign of `a`. -/
theorem C1_div_mod_identity (a b : BigInt) (hb : b.data ≠ 0) :
    ∃ q r : BigInt, op_div a b = .ok q ∧ op_mod a b = .ok r ∧
      op_eq a (op_add (op_mul q b) r) = true ∧
      |q.data * b.data| ≤ |a.data| ∧ |a.data - q.data * b.data| < |b.data| ∧
      (0 ≤ a.data * b.data → 0 ≤ q.data) ∧ (a.data * b.data ≤ 0 → q.data ≤ 0) ∧
      (r.data = 0 ∨ Int.sign r.data = Int.sign a.data) := by
  refine ⟨⟨a.data.tdiv b.data⟩, ⟨a.data.tmod b.data⟩, ?_, ?_, ?_, ?_, ?_, ?_, ?_, ?_⟩
  · simp [op_div, mpz_tdiv_q, hb, Except.map]
  · simp [op_mod, mpz_tdiv_r, hb, Except.map]
  · have h := Int.tmod_add_tdiv a.data b.data
    have h2 : a.data = a.data.tdiv b.data * b.data + a.data.tmod b.data := by
      rw [mul_comm, add_comm]; exact h.symm
    have hlt : ¬ a.data < a.data.tdiv b.data * b.data + a.data.tmod b.data := by
      rw [← h2]; exact lt_irrefl _
    simp only [op_eq, op_add, op_mul, mpz_cmp, mpz_add, mpz_mul]
    rw [if_neg hlt, if_pos h2]
    rfl
  · exact abs_tdiv_mul_le a.data b.data
  · have h : a.data - a.data.tdiv b.data * b.data = a.data.tmod b.data := by
      rw [Int.tmod_def]; ring
    show |a.data - a.data.tdiv b.data * b.data| < |b.data|
    rw [h]
    exact abs_tmod_lt a.data b.data hb
  · intro h
    show 0 ≤ a.data.tdiv b.data
    rcases le_or_lt 0 a.data with ha | ha
    · rcases le_or_lt 0 b.data with hb0 | hb0
      · exact Int.tdiv_nonneg ha hb0
      · have h3 : a.data * b.data ≤ 0 := mul_nonpos_of_nonneg_of_nonpos ha (le_of_lt hb0)
        have h4 : a.data * b.data = 0 := le_antisymm h3 h
        rcases mul_eq_zero.mp h4 with h5 | h5
        · rw [h5]; simp
        · exact absurd h5 hb
    · rcases le_or_lt b.data 0 with hb0 | hb0
      · have hna : (0 : Int) ≤ -a.data := by omega
        have hnb : (0 : Int) ≤ -b.data := by omega
        have := Int.tdiv_nonneg hna hnb
        rwa [Int.neg_tdiv_neg] at this
      · have h3 : a.data * b.data < 0 := mul_neg_of_neg_of_pos ha hb0
        omega
  · intro h
    show a.data.tdiv b.data ≤ 0
    rcases le_or_lt 0 a.data with ha | ha
    · rcases le_or_lt b.data 0 with hb0 | hb0
      · exact Int.tdiv_nonpos ha hb0
      · have h3 : 0 ≤ a.data * b.data := mul_nonneg ha (le_of_lt hb0)
        have h4 : a.data * b.data = 0 := le_antisymm h h3
        rcases mul_eq_zero.mp h4 with h5 | h5
        · rw [h5]; simp
        · exact absurd h5 hb
    · rcases le_or_lt b.data 0 with hb0 | hb0
      · have h3 : 0 ≤ a.data * b.data := mul_nonneg_of_nonpos_of_nonpos (le_of_lt ha) hb0
        have h4 : a.data * b.data = 0 := le_antisymm h h3
        rcases mul_eq_zero.mp h4 with h5 | h5
        · rw [h5]; simp
        · exact absurd h5 hb
      · have hna : (0 : Int) ≤ -a.data := by omega
        have := Int.tdiv_nonneg hna (le_of_lt hb0)
        rw [Int.neg_tdiv] at this
        omega
  · exact tmod_zero_or_sign a.data b.data

/-- C1 at `a = -7`, `b = 2`: the quotient is `-3` and the remainder `-1`. -/
theorem C1_div_mod_identity_witness :
    (BigInt.mk 2).data ≠ 0 ∧
    op_div ⟨-7⟩ ⟨2⟩ = .ok ⟨-3⟩ ∧ op_mod ⟨-7⟩ ⟨2⟩ = .ok ⟨-1⟩ ∧
    ∃ q r : BigInt, op_div ⟨-7⟩ ⟨2⟩ = .ok q ∧ op_mod ⟨-7⟩ ⟨2⟩ = .ok r ∧
      op_eq ⟨-7⟩ (op_add (op_mul q ⟨2⟩) r) = true ∧
      |q.data * (BigInt.mk 2).data| ≤ |(BigInt.mk (-7)).data| ∧
      |(BigInt.mk (-7)).data - q.data * (BigInt.mk 2).data| < |(BigInt.mk 2).data| ∧
      (0 ≤ (BigInt.mk (-7)).data * (BigInt.mk 2).data → 0 ≤ q.data) ∧
      ((BigInt.mk (-7)).data * (BigInt.mk 2).data ≤ 0 → q.data ≤ 0) ∧
      (r.data = 0 ∨ Int.sign r.data = Int.sign (BigInt.mk (-7)).data) :=
  ⟨by decide, by decide, by decide, C1_div_mod_identity ⟨-7⟩ ⟨2⟩ (by decide)⟩

/-! ## Operators with an `int` operand -/

/-- The quotient that `operator /(BigInt, int)` returns for a nonzero `int`
other than `INT_MIN`: for a negative divisor it is `-|a / |n||`. -/
theorem op_div_int_value (a : BigInt) (n : Int) (hn : isInt n) (h0 : n ≠ 0)
    (hmin : n ≠ INT_MIN) :
    op_div_int a n =
      .ok ⟨if 0 < n then a.data.tdiv n else -|a.data.tdiv n|⟩ := by
  unfold op_div_int
  by_cases h : 0 < n
  · have h1 : n ≥ 0 := le_of_lt h
    rw [if_pos h1, if_pos h, to_uint_of_nonneg n h1 hn]
    simp [op_div_uint, mpz_tdiv_q_ui, h0, Except.map]
  · have h1 : n < 0 := by omega
    have h2 : ¬ n ≥ 0 := by omega
    rw [if_neg h2, if_neg h, std_abs_of_neg n h1 hmin]
    have h3 : -n ≠ 0 := by omega
    have hq : op_div_uint a (to_uint (-n)) = .ok ⟨a.data.tdiv (-n)⟩ := by
      rw [to_uint_neg_of_neg n h1 hn]
      simp [op_div_uint, mpz_tdiv_q_ui, h3, Except.map]
    show (op_div_uint a (to_uint (-n))).bind (fun q => op_int_sub 0 q) = _
    rw [hq]
    show op_int_sub 0 ⟨a.data.tdiv (-n)⟩ = _
    rw [op_int_sub_zero]
    simp only [Int.tdiv_neg, abs_neg]

/-- C2: at `a = -7`, `n = -2` the operator `/(BigInt, int)` returns `-3`, while
the quotient of `a` by `n` rounded toward zero, `a / BigInt(n)`, is `3`. -/
theorem C2_div_int_negative_operands :
    op_div_int ⟨-7⟩ (-2) = .ok ⟨-3⟩ ∧ op_div ⟨-7⟩ (ofInt (-2)) = .ok ⟨3⟩ ∧ isInt (-2) := by
  decide

/-- The product that `operator *(BigInt, int)` returns for an `int` other than
`INT_MIN`: for a negative factor `n` it is `-|a * n|`. -/
theorem op_mul_int_value (a : BigInt) (n : Int) (hn : isInt n) (hmin : n ≠ INT_MIN) :
    op_mul_int a n = .ok ⟨if 0 ≤ n then a.data * n else -|a.data * n|⟩ := by
  unfold op_mul_int
  by_cases h : 0 ≤ n
  · rw [if_pos h, if_pos h, to_uint_of_nonneg n h hn]
    rfl
  · have h1 : n < 0 := by omega
    rw [if_neg h, if_neg h, std_abs_of_neg n h1 hmin]
    show op_int_sub 0 (op_mul_uint a (to_uint (-n))) = _
    rw [op_int_sub_zero, to_uint_neg_of_neg n h1 hn]
    simp only [op_mul_uint, mpz_mul_ui, mul_neg, abs_neg]

/-- C3: at `a = -3`, `n = -2` the operator `*(BigInt, int)` returns `-6`, while
the product `a * BigInt(n)` is `6`. -/
theorem C3_mul_int_negative_operands :
    op_mul_int ⟨-3⟩ (-2) = .ok ⟨-6⟩ ∧ op_mul ⟨-3⟩ (ofInt (-2)) = ⟨6⟩ ∧ isInt (-2) := by
  decide

/-- C4: at `n = 0`, `b = -5` the operator `-(int, BigInt)` returns `-5`, while
the difference `n - b` is `5`; at `n = -3`, `b = 5` it returns `2^32 - 8`, while
the difference is `-8`.  At `n = 0`, `b = 5` it returns `-5`. -/
theorem C4_int_sub_wrong_values :
    op_int_sub 0 ⟨-5⟩ = .ok ⟨-5⟩ ∧ op_sub (ofInt 0) ⟨-5⟩ = ⟨5⟩ ∧
    op_int_sub (-3) ⟨5⟩ = .ok ⟨4294967288⟩ ∧ op_sub (ofInt (-3)) ⟨5⟩ = ⟨-8⟩ ∧
    op_int_sub 0 ⟨5⟩ = .ok (ofInt (-5)) := by
  decide

/-- The sum and the difference that `operator +(BigInt, int)` and
`operator -(BigInt, int)` return for an `int` `n` other than `INT_MIN`: the
exact ones; for a negative `n` they are `a - |n|` and `a + |n|` of the
`unsigned int` operators. -/
theorem op_add_sub_int_exact (a : BigInt) (n : Int) (hn : isInt n) (hmin : n ≠ INT_MIN) :
    op_add_int a n = .ok ⟨a.data + n⟩ ∧ op_sub_int a n = .ok ⟨a.data - n⟩ ∧
    (n < 0 → isUInt (-n) ∧ op_add_int a n = .ok (op_sub_uint a (-n)) ∧
      op_sub_int a n = .ok (op_add_uint a (-n))) := by
  by_cases h : 0 ≤ n
  · have h1 : n ≥ 0 := h
    refine ⟨?_, ?_, fun h2 => absurd h2 (by omega)⟩
    · simp only [op_add_int, if_pos h1, to_uint_of_nonneg n h hn, op_add_uint, mpz_add_ui]
    · simp only [op_sub_int, if_pos h1, to_uint_of_nonneg n h hn, op_sub_uint, mpz_sub_ui]
  · have h1 : n < 0 := by omega
    have h2 : ¬ n ≥ 0 := by omega
    have e1 : op_add_int a n = .ok (op_sub_uint a (-n)) := by
      unfold op_add_int
      rw [if_neg h2, std_abs_of_neg n h1 hmin]
      show Except.ok (op_sub_uint a (to_uint (-n))) = _
      rw [to_uint_neg_of_neg n h1 hn]
    have e2 : op_sub_int a n = .ok (op_add_uint a (-n)) := by
      unfold op_sub_int
      rw [if_neg h2, std_abs_of_neg n h1 hmin]
      show Except.ok (op_add_uint a (to_uint (-n))) = _
      rw [to_uint_neg_of_neg n h1 hn]
    refine ⟨?_, ?_, fun _ => ⟨?_, e1, e2⟩⟩
    · rw [e1]; congr 1; apply eq_of_data; simp only [op_sub_uint, mpz_sub_ui]; ring
    · rw [e2]; rfl
    · unfold isInt INT_MIN INT_MAX at hn
      unfold isUInt UINT_MAX
      omega

/-- C5: at `n = INT_MIN`, the minimum `int`, the operators `+(BigInt, int)` and
`-(BigInt, int)` take the branch for a negative `n` and call
`std::abs(INT_MIN)`, whose behaviour is undefined: for `BigInt(5)` no sum and
no difference is given, while the sum is `5 + INT_MIN` and the difference
`5 - INT_MIN`.  The witnesses of the claim away from `INT_MIN` hold:
`BigInt(5) - 7 == BigInt(-2)` and `a + (-5)` is `a - 5`. -/
theorem C5_add_sub_int_min_undefined :
    isInt INT_MIN ∧
    op_add_int ⟨5⟩ INT_MIN = .error .undefined_abs ∧
    op_sub_int ⟨5⟩ INT_MIN = .error .undefined_abs ∧
    op_add ⟨5⟩ (ofInt INT_MIN) = ⟨5 + INT_MIN⟩ ∧ op_sub ⟨5⟩ (ofInt INT_MIN) = ⟨5 - INT_MIN⟩ ∧
    op_sub_int (ofInt 5) 7 = .ok (ofInt (-2)) ∧
    op_add_int ⟨5⟩ (-5) = .ok (op_sub_uint ⟨5⟩ 5) := by
  decide

/-- C6: `BigInt(long long v)` has the value `v` for every 64-bit signed `v`, and
`BigInt(unsigned long long u)` the value `u` for every 64-bit unsigned `u`: the
high half times `2^32` plus the low half read as unsigned loses nothing. -/
theorem C6_ctor_64bit_exact (v u : Int) (hv : isLongLong v) (hu : isULongLong u) :
    (ofLongLong v).data = v ∧ (ofULongLong u).data = u ∧
    v = to_int (shr32 v) * 2 ^ 32 + to_uint v ∧ u = to_uint (shr32 u) * 2 ^ 32 + to_uint u := by
  unfold isLongLong LLONG_MIN LLONG_MAX at hv
  unfold isULongLong ULLONG_MAX at hu
  refine ⟨?_, ?_, ?_, ?_⟩
  · simp only [ofLongLong, mpz_set_si, mpz_mul_2exp, mpz_add_ui, to_int, to_uint, shr32]
    norm_num
    omega
  · simp only [ofULongLong, mpz_set_ui, mpz_mul_2exp, mpz_add_ui, to_uint, shr32]
    norm_num
    omega
  · simp only [to_int, to_uint, shr32]
    norm_num
    omega
  · simp only [to_uint, shr32]
    norm_num
    omega

/-- C6 at the extremes: `v = LLONG_MIN` and `u = ULLONG_MAX`; also `v = -1`. -/
theorem C6_ctor_64bit_exact_witness :
    isLongLong LLONG_MIN ∧ isULongLong ULLONG_MAX ∧ ofLongLong (-1) = ⟨-1⟩ ∧
    ((ofLongLong LLONG_MIN).data = LLONG_MIN ∧ (ofULongLong ULLONG_MAX).data = ULLONG_MAX ∧
    LLONG_MIN = to_int (shr32 LLONG_MIN) * 2 ^ 32 + to_uint LLONG_MIN ∧
    ULLONG_MAX = to_uint (shr32 ULLONG_MAX) * 2 ^ 32 + to_uint ULLONG_MAX) :=
  ⟨by decide, by decide, by decide,
    C6_ctor_64bit_exact LLONG_MIN ULLONG_MAX (by decide) (by decide)⟩

/-- The remainder that `operator %(BigInt, int)` returns for a nonzero `int`
`n` other than `INT_MIN`: the value `r` that `a % BigInt(n)` returns; `r` is
the truncating remainder (`a = q * n + r` with `|q * n| ≤ |a|`), is zero or has
the sign of `a`, and `|r| < |n|`. -/
theorem op_mod_int_truncating (a : BigInt) (n : Int) (hn : isInt n) (h0 : n ≠ 0)
    (hmin : n ≠ INT_MIN) :
    ∃ r : BigInt, op_mod_int a n = .ok r ∧ op_mod a (ofInt n) = .ok r ∧
      (∃ q : Int, a.data = q * n + r.data ∧ |q * n| ≤ |a.data|) ∧
      (r.data = 0 ∨ Int.sign r.data = Int.sign a.data) ∧ |r.data| < |n| := by
  refine ⟨⟨a.data.tmod n⟩, ?_, ?_, ⟨a.data.tdiv n, ?_, ?_⟩, ?_, ?_⟩
  · unfold op_mod_int
    by_cases h : 0 ≤ n
    · rw [std_abs_of_nonneg n h]
      show op_mod_uint a (to_uint n) = _
      rw [to_uint_of_nonneg n h hn]
      simp [op_mod_uint, mpz_tdiv_r_ui, h0, Except.map]
    · have h1 : n < 0 := by omega
      have h3 : -n ≠ 0 := by omega
      rw [std_abs_of_neg n h1 hmin]
      show op_mod_uint a (to_uint (-n)) = _
      rw [to_uint_neg_of_neg n h1 hn]
      simp [op_mod_uint, mpz_tdiv_r_ui, h3, Except.map]
  · simp [op_mod, ofInt, mpz_set_si, mpz_tdiv_r, h0, Except.map]
  · have h := Int.tmod_add_tdiv a.data n
    show a.data = a.data.tdiv n * n + a.data.tmod n
    rw [mul_comm, add_comm]; exact h.symm
  · exact abs_tdiv_mul_le a.data n
  · exact tmod_zero_or_sign a.data n
  · exact abs_tmod_lt a.data n h0

/-- C7: at `n = INT_MIN`, a nonzero `int`, the operator `%(BigInt, int)` calls
`std::abs(INT_MIN)`, whose behaviour is undefined: for
`a = BigInt(-6442450945)` no remainder is given, while `a % BigInt(n)` is
`-1`.  Away from `INT_MIN` the remainder is the truncating one: `-7 % -2`
is `-1`. -/
theorem C7_mod_int_min_undefined :
    isInt INT_MIN ∧ INT_MIN ≠ 0 ∧
    op_mod_int ⟨-6442450945⟩ INT_MIN = .error .undefined_abs ∧
    op_mod ⟨-6442450945⟩ (ofInt INT_MIN) = .ok ⟨-1⟩ ∧
    op_mod_int ⟨-7⟩ (-2) = .ok ⟨-1⟩ := by
  decide

/-! ## Text and division by zero -/

/-- C9: for every `a`, the operators `/` and `%` with a zero right operand (a
`BigInt`, an `unsigned int` or an `int`) raise the division by zero and return
no value. -/
theorem C9_division_by_zero (a b : BigInt) (hb : op_eq_int b 0 = true) :
    op_div a b = .error .divide_by_zero ∧
    op_div_uint a 0 = .error .divide_by_zero ∧
    op_div_int a 0 = .error .divide_by_zero ∧
    op_mod a b = .error .divide_by_zero ∧
    op_mod_uint a 0 = .error .divide_by_zero ∧
    op_mod_int a 0 = .error .divide_by_zero := by
  have hb0 : b.data = 0 := by
    unfold op_eq_int mpz_cmp_si mpz_cmp at hb
    by_cases h1 : b.data < 0
    · rw [if_pos h1] at hb; exact absurd hb (by decide)
    · rw [if_neg h1] at hb
      by_cases h2 : b.data = 0
      · exact h2
      · rw [if_neg h2] at hb; exact absurd hb (by decide)
  refine ⟨?_, rfl, rfl, ?_, rfl, rfl⟩
  · unfold op_div mpz_tdiv_q; rw [if_pos hb0]; rfl
  · unfold op_mod mpz_tdiv_r; rw [if_pos hb0]; rfl

/-- C9 at `a = 7` and the zero of `BigInt(0)`. -/
theorem C9_division_by_zero_witness :
    op_eq_int (ofInt 0) 0 = true ∧
    (op_div ⟨7⟩ (ofInt 0) = .error .divide_by_zero ∧
    op_div_uint ⟨7⟩ 0 = .error .divide_by_zero ∧
    op_div_int ⟨7⟩ 0 = .error .divide_by_zero ∧
    op_mod ⟨7⟩ (ofInt 0) = .error .divide_by_zero ∧
    op_mod_uint ⟨7⟩ 0 = .error .divide_by_zero ∧
    op_mod_int ⟨7⟩ 0 = .error .divide_by_zero) :=
  ⟨by decide, C9_division_by_zero ⟨7⟩ (ofInt 0) (by decide)⟩

/-- C10: for every value `v` and every base `b` from 2 to 62, `getString(b)`
returns a text `s` such that `BigInt(s, b) == v`, for both string
constructors; `s` starts with `-` exactly when `v` is negative, and is `0`
when `v` is zero. -/
theorem C10_getString_roundtrip (v : BigInt) (b : Int) (h2 : 2 ≤ b) (h62 : b ≤ 62) :
    ∃ s : List Char, getString v b = some s ∧
      op_eq (ofString s b) v = true ∧ op_eq (ofCStr s b) v = true ∧
      (s.head? = some '-' ↔ v.data < 0) ∧ (v.data = 0 → s = ['0']) := by
  obtain ⟨text, hsel, hok⟩ := get_str_alphabet_ok b h2 h62
  have hbn : 2 ≤ b.toNat := by omega
  have heq : ∀ x : BigInt, x = v → op_eq x v = true := by
    intro x hx; subst hx; simp [op_eq, mpz_cmp]
  have hget : getString v b = some ((if v.data < 0 then ['-'] else []) ++
      (mpn_get_str b.toNat v.data.natAbs).map (fun d => text.getD d NUL)) := by
    unfold getString mpz_get_str; rw [hsel]; rfl
  by_cases hv0 : v.data = 0
  · have hs : (if v.data < 0 then ['-'] else []) ++
        (mpn_get_str b.toNat v.data.natAbs).map (fun d => text.getD d NUL) = ['0'] := by
      rw [hv0]
      have h0 : text.getD 0 NUL = '0' := ((hok 0 (by omega)).2.2.2.2).mpr rfl
      have hd0 : mpn_get_str b.toNat (0 : Int).natAbs = [0] := rfl
      rw [hd0, if_neg (lt_irrefl 0), List.map_cons, List.map_nil, h0]
      rfl
    rw [hs] at hget
    have hc : c_str ['0'] = ['0'] := by decide
    have hval : ofCStr ['0'] b = v := by
      apply eq_of_data
      unfold ofCStr
      rw [mpz_set_str_zero mpz_init b h2 h62, hv0]
    refine ⟨['0'], hget, heq _ ?_, heq _ hval, ?_, fun _ => rfl⟩
    · unfold ofString; rw [hc]; exact hval
    · rw [hv0]; simp
  · have hn0 : v.data.natAbs ≠ 0 := by omega
    obtain ⟨d, rest, hds, hd0⟩ := mpn_get_str_head b.toNat v.data.natAbs hbn hn0
    have hlt := mpn_get_str_lt b.toNat v.data.natAbs hbn
    have hval := mpn_set_str_get_str b.toNat v.data.natAbs hbn
    rw [hds] at hlt hval
    have hd : d < b.toNat := hlt d (List.mem_cons_self _ _)
    obtain ⟨-, hsp, -, hminus, hzero⟩ := hok d hd
    have hz : text.getD d NUL ≠ '0' := fun h => hd0 (hzero.mp h)
    have hcol := collect_digits_map (decide (b > 36)) b text hok (d :: rest) hlt
    rw [List.map_cons] at hcol
    rw [hds, List.map_cons] at hget
    have hset := mpz_set_str_clean mpz_init (decide (v.data < 0)) (text.getD d NUL)
      (rest.map (fun d => text.getD d NUL)) (d :: rest) b h2 h62 hsp hminus hz hcol
    rw [hval] at hset
    have hsign : (if decide (v.data < 0) = true then -(v.data.natAbs : Int)
        else (v.data.natAbs : Int)) = v.data := by
      by_cases hneg : v.data < 0
      · simp only [hneg, decide_True, if_true]; omega
      · simp only [hneg, decide_False, Bool.false_eq_true, if_false]; omega
    rw [hsign] at hset
    have hsimp : (if decide (v.data < 0) = true then ['-'] else []) =
        (if v.data < 0 then ['-'] else ([] : List Char)) := by
      by_cases hneg : v.data < 0 <;> simp [hneg]
    rw [hsimp] at hset
    have hcstr : ofCStr ((if v.data < 0 then ['-'] else []) ++
        text.getD d NUL :: rest.map (fun d => text.getD d NUL)) b = v := by
      apply eq_of_data
      unfold ofCStr
      rw [hset]
    have hnul : ∀ c ∈ (if v.data < 0 then ['-'] else []) ++
        text.getD d NUL :: rest.map (fun d => text.getD d NUL), c ≠ NUL := by
      intro c hc
      rcases List.mem_append.mp hc with h | h
      · by_cases hneg : v.data < 0
        · rw [if_pos hneg, List.mem_singleton] at h
          rw [h]; decide
        · rw [if_neg hneg] at h
          exact absurd h (List.not_mem_nil _)
      · have h' : c ∈ (d :: rest).map (fun d => text.getD d NUL) := by
          rw [List.map_cons]; exact h
        obtain ⟨e, he, hce⟩ := List.mem_map.mp h'
        rw [← hce]
        exact (hok e (hlt e he)).2.2.1
    refine ⟨_, hget, heq _ ?_, heq _ hcstr, ?_, fun h => absurd h hv0⟩
    · unfold ofString; rw [c_str_of_no_NUL _ hnul]; exact hcstr
    · by_cases hneg : v.data < 0
      · simp [hneg]
      · simp only [hneg, if_false, List.nil_append, List.head?_cons, Option.some.injEq, iff_false]
        exact hminus

/-- C10 at `v = -255`, `b = 16`: the text is `-ff`. -/
theorem C10_getString_roundtrip_witness :
    (2 : Int) ≤ 16 ∧ (16 : Int) ≤ 62 ∧ getString ⟨-255⟩ 16 = some "-ff".toList ∧
    ofString "-ff".toList 16 = ⟨-255⟩ ∧
    ∃ s : List Char, getString ⟨-255⟩ 16 = some s ∧
      op_eq (ofString s 16) ⟨-255⟩ = true ∧ op_eq (ofCStr s 16) ⟨-255⟩ = true ∧
      (s.head? = some '-' ↔ (BigInt.mk (-255)).data < 0) ∧
      ((BigInt.mk (-255)).data = 0 → s = ['0']) :=
  ⟨by decide, by decide, by decide, by decide,
    C10_getString_roundtrip ⟨-255⟩ 16 (by decide) (by decide)⟩

/-! ## Comparison -/

/-- C12: for all `a` and `b`, exactly one of `a < b`, `a == b`, `a > b` holds;
`a <= b` holds iff `a < b` or `a == b`; `a >= b` iff `a > b` or `a == b`; and
`a != b` is the negation of `a == b`.  The same for every `int` `n` and every
`unsigned int` `u` on the right (for every integer there, whatever its range);
each comparison is the one of the values. -/
theorem C12_comparison_consistency (a b : BigInt) (n u : Int) :
    ((op_lt a b = true ∧ op_eq a b = false ∧ op_gt a b = false) ∨
      (op_lt a b = false ∧ op_eq a b = true ∧ op_gt a b = false) ∨
      (op_lt a b = false ∧ op_eq a b = false ∧ op_gt a b = true)) ∧
    (op_le a b = (op_lt a b || op_eq a b)) ∧ (op_ge a b = (op_gt a b || op_eq a b)) ∧
    (op_ne a b = !op_eq a b) ∧
    ((op_lt_int a n = true ∧ op_eq_int a n = false ∧ op_gt_int a n = false) ∨
      (op_lt_int a n = false ∧ op_eq_int a n = true ∧ op_gt_int a n = false) ∨
      (op_lt_int a n = false ∧ op_eq_int a n = false ∧ op_gt_int a n = true)) ∧
    (op_le_int a n = (op_lt_int a n || op_eq_int a n)) ∧
    (op_ge_int a n = (op_gt_int a n || op_eq_int a n)) ∧
    (op_ne_int a n = !op_eq_int a n) ∧
    ((op_lt_uint a u = true ∧ op_eq_uint a u = false ∧ op_gt_uint a u = false) ∨
      (op_lt_uint a u = false ∧ op_eq_uint a u = true ∧ op_gt_uint a u = false) ∨
      (op_lt_uint a u = false ∧ op_eq_uint a u = false ∧ op_gt_uint a u = true)) ∧
    (op_le_uint a u = (op_lt_uint a u || op_eq_uint a u)) ∧
    (op_ge_uint a u = (op_gt_uint a u || op_eq_uint a u)) ∧
    (op_ne_uint a u = !op_eq_uint a u) ∧
    (op_lt a b = true ↔ a.data < b.data) ∧ (op_eq a b = true ↔ a.data = b.data) ∧
    (op_lt_int a n = true ↔ a.data < n) ∧ (op_eq_int a n = true ↔ a.data = n) ∧
    (op_lt_uint a u = true ↔ a.data < u) ∧ (op_eq_uint a u = true ↔ a.data = u) := by
  have key : ∀ x y : Int,
      ((decide (mpz_cmp x y < 0) = true ∧ (mpz_cmp x y == 0) = false ∧
          decide (mpz_cmp x y > 0) = false) ∨
        (decide (mpz_cmp x y < 0) = false ∧ (mpz_cmp x y == 0) = true ∧
          decide (mpz_cmp x y > 0) = false) ∨
        (decide (mpz_cmp x y < 0) = false ∧ (mpz_cmp x y == 0) = false ∧
          decide (mpz_cmp x y > 0) = true)) ∧
      (decide (mpz_cmp x y ≤ 0) = (decide (mpz_cmp x y < 0) || (mpz_cmp x y == 0))) ∧
      (decide (mpz_cmp x y ≥ 0) = (decide (mpz_cmp x y > 0) || (mpz_cmp x y == 0))) ∧
      (decide (mpz_cmp x y < 0) = true ↔ x < y) ∧ ((mpz_cmp x y == 0) = true ↔ x = y) := by
    intro x y
    unfold mpz_cmp
    rcases lt_trichotomy x y with h | h | h
    · have h1 : x ≠ y := ne_of_lt h
      simp [h, h1]
    · subst h; simp
    · have h1 : ¬ x < y := not_lt.mpr (le_of_lt h)
      have h2 : x ≠ y := (ne_of_lt h).symm
      simp [h1, h2]
  obtain ⟨k1, k2, k3, k4, k5⟩ := key a.data b.data
  obtain ⟨n1, n2, n3, n4, n5⟩ := key a.data n
  obtain ⟨u1, u2, u3, u4, u5⟩ := key a.data u
  exact ⟨k1, k2, k3, rfl, n1, n2, n3, rfl, u1, u2, u3, rfl, k4, k5, n4, n5, u4, u5⟩

/-! ## Increment and decrement -/

/-- C14: for every `a` of value `v`, `++a` and `--a` leave `a` at `v + 1` and
`v - 1` and return that value; `a++` and `a--` leave `a` at `v + 1` and `v - 1`
and return a `BigInt` equal to `v`. -/
theorem C14_increment_decrement (a : BigInt) :
    op_pre_inc a = .ok (⟨a.data + 1⟩, ⟨a.data + 1⟩) ∧
    op_pre_dec a = .ok (⟨a.data - 1⟩, ⟨a.data - 1⟩) ∧
    op_post_inc a = .ok (⟨a.data + 1⟩, a) ∧ op_post_dec a = .ok (⟨a.data - 1⟩, a) ∧
    (op_post_inc a).map (fun r => op_eq r.2 a) = .ok true ∧
    (op_post_dec a).map (fun r => op_eq r.2 a) = .ok true := by
  have h1 : op_pre_inc a = .ok (⟨a.data + 1⟩, ⟨a.data + 1⟩) := rfl
  have h2 : op_pre_dec a = .ok (⟨a.data - 1⟩, ⟨a.data - 1⟩) := rfl
  have h3 : op_post_inc a = .ok (⟨a.data + 1⟩, a) := rfl
  have h4 : op_post_dec a = .ok (⟨a.data - 1⟩, a) := rfl
  have h5 : op_eq a a = true := by simp [op_eq, mpz_cmp]
  refine ⟨h1, h2, h3, h4, ?_, ?_⟩
  · rw [h3]; show Except.ok (op_eq a a) = _; rw [h5]
  · rw [h4]; show Except.ok (op_eq a a) = _; rw [h5]

/-! ## The root-level version -/

/-- C16: in `src/bigint.cpp`, at `a = 7`, `b = 2` the operator `/` returns `1`
(the quotient rounded toward zero is `3`) and `a == (a / b) * b + (a % b)` is
false; at `a = -7`, `b = 2` the operator `%` returns `1`, of the sign opposite
to the dividend. -/
theorem C16_root_div_mod_wrong_values :
    Root.op_div ⟨7⟩ ⟨2⟩ = .ok ⟨1⟩ ∧ Root.op_mod ⟨7⟩ ⟨2⟩ = .ok ⟨1⟩ ∧
    Root.op_eq ⟨7⟩ (Root.op_add (Root.op_mul ⟨1⟩ ⟨2⟩) ⟨1⟩) = false ∧
    Root.op_div ⟨-7⟩ ⟨2⟩ = .ok ⟨1⟩ ∧ Root.op_mod ⟨-7⟩ ⟨2⟩ = .ok ⟨1⟩ ∧
    op_div ⟨7⟩ ⟨2⟩ = .ok ⟨3⟩ ∧ op_mod ⟨-7⟩ ⟨2⟩ = .ok ⟨-1⟩ := by
  decide

/-- What `operator /` of `src/bigint.cpp` returns for a nonzero divisor: the
remainder of the flooring division, never the quotient. -/
theorem root_op_div_value (a b : BigInt) (hb : b.data ≠ 0) :
    Root.op_div a b = .ok ⟨Int.fmod a.data b.data⟩ := by
  simp [Root.op_div, mpz_fdiv_r, hb, Except.map]

/-! ## In-place and value-returning forms -/

/-- The value that `0 -= right` of `operator -=(int, BigInt&)` leaves in
`right`: the negation. -/
theorem op_int_sub_assign_zero (right : BigInt) :
    op_int_sub_assign 0 right = .ok ⟨-right.data⟩ := by
  show Except.ok (op_uint_sub_assign (to_uint 0) right) = _
  congr 1
  apply eq_of_data
  simp [op_uint_sub_assign, op_assign, op_uint_sub, mpz_ui_sub, to_uint]

/-- The product that `operator *=(BigInt&, int)` leaves in the receiver for an
`int` other than `INT_MIN`: the exact one. -/
theorem op_mul_assign_int_value (a : BigInt) (n : Int) (hn : isInt n) (hmin : n ≠ INT_MIN) :
    op_mul_assign_int a n = .ok ⟨a.data * n⟩ := by
  unfold op_mul_assign_int
  by_cases h : 0 ≤ n
  · have h1 : n ≥ 0 := h
    rw [if_pos h1, to_uint_of_nonneg n h hn]
    rfl
  · have h1 : n < 0 := by omega
    rw [if_neg h, std_abs_of_neg n h1 hmin]
    show op_int_sub_assign 0 (op_mul_assign_uint a (to_uint (-n))) = _
    rw [op_int_sub_assign_zero, to_uint_neg_of_neg n h1 hn]
    congr 1
    apply eq_of_data
    simp only [op_mul_assign_uint, mpz_mul_ui]
    ring

/-- C18: at `a = -3`, `n = -2` the receiver after `a *= n` is `6` and the value
returned by `a * n` is `-6`; at `a = -7`, `n = -2` the receiver after `a /= n`
is `3` and the value returned by `a / n` is `-3`. -/
theorem C18_assign_forms_disagree :
    op_mul_assign_int ⟨-3⟩ (-2) = .ok ⟨6⟩ ∧ op_mul_int ⟨-3⟩ (-2) = .ok ⟨-6⟩ ∧
    op_div_assign_int ⟨-7⟩ (-2) = .ok ⟨3⟩ ∧ op_div_int ⟨-7⟩ (-2) = .ok ⟨-3⟩ ∧ isInt (-2) := by
  decide

/-! ## Powers -/

theorem mpn_set_str_replicate_zero (base : Nat) : ∀ n : Nat,
    mpn_set_str (List.replicate n 0) base = 0 := by
  intro n
  induction n with
  | zero => rfl
  | succ n ih =>
    rw [List.replicate_succ, mpn_set_str_cons, ih]
    simp

theorem collect_digits_replicate_zero (n : Nat) :
    collect_digits false 10 (List.replicate n '0') = some (List.replicate n 0) := by
  induction n with
  | zero => rfl
  | succ n ih =>
    rw [List.replicate_succ, List.replicate_succ]
    simp only [collect_digits]
    rw [ih]
    rfl

/-- C11: for every `unsigned int` `n`, `bigPow10(n)` has the value `10 ^ n`,
read from the string `1` followed by `n` characters `0` in base 10 (`n.toNat`
is `n` as a natural number). -/
theorem C11_bigPow10_exact (n : Int) (hn : isUInt n) :
    bigPow10 n = ⟨10 ^ n.toNat⟩ ∧ (n.toNat : Int) = n ∧
    bigPow10 n = ofString ('1' :: List.replicate n.toNat '0') 10 ∧
    op_eq (bigPow10 n) ⟨10 ^ n.toNat⟩ = true := by
  have hval : bigPow10 n = ⟨10 ^ n.toNat⟩ := by
    have hnul : ∀ c ∈ '1' :: List.replicate n.toNat '0', c ≠ NUL := by
      intro c hc
      rcases List.mem_cons.mp hc with h | h
      · rw [h]; decide
      · rw [List.eq_of_mem_replicate h]; decide
    have hcol : collect_digits (decide ((10 : Int) > 36)) 10 ('1' :: List.replicate n.toNat '0')
        = some (1 :: List.replicate n.toNat 0) := by
      have h36 : decide ((10 : Int) > 36) = false := by decide
      rw [h36]
      simp only [collect_digits]
      rw [collect_digits_replicate_zero]
      rfl
    have hset := mpz_set_str_clean mpz_init false '1' (List.replicate n.toNat '0')
      (1 :: List.replicate n.toNat 0) 10 (by decide) (by decide) (by decide) (by decide)
      (by decide) hcol
    apply eq_of_data
    unfold bigPow10 ofString ofCStr default_base
    rw [c_str_of_no_NUL _ hnul]
    simp only [Bool.false_eq_true, if_false, List.nil_append] at hset
    rw [hset]
    show ((mpn_set_str (1 :: List.replicate n.toNat 0) (10 : Int).toNat : Nat) : Int)
      = 10 ^ n.toNat
    rw [mpn_set_str_cons, mpn_set_str_replicate_zero, List.length_replicate]
    have h10 : (10 : Int).toNat = 10 := rfl
    rw [h10]
    push_cast
    ring
  refine ⟨hval, Int.toNat_of_nonneg hn.1, rfl, ?_⟩
  rw [hval]
  simp [op_eq, mpz_cmp]

/-- C11 at `n = 20`: `bigPow10(20)` renders in base 10 as `1` followed by 20
zeros. -/
theorem C11_bigPow10_exact_witness :
    isUInt 20 ∧
    getString (bigPow10 20) 10 = some ('1' :: List.replicate 20 '0') ∧
    (bigPow10 20 = ⟨10 ^ (20 : Int).toNat⟩ ∧ ((20 : Int).toNat : Int) = 20 ∧
    bigPow10 20 = ofString ('1' :: List.replicate (20 : Int).toNat '0') 10 ∧
    op_eq (bigPow10 20) ⟨10 ^ (20 : Int).toNat⟩ = true) :=
  ⟨by decide, by decide, C11_bigPow10_exact 20 (by decide)⟩

theorem mpz_powm_loop_modEq (m : Int) : ∀ (fuel : Nat) (b : Int) (e : Nat) (r : Int),
    e ≤ fuel → mpz_powm_loop m fuel b e r ≡ r * b ^ e [ZMOD m] := by
  intro fuel
  induction fuel with
  | zero =>
    intro b e r he
    have : e = 0 := by omega
    subst this
    simp [mpz_powm_loop, Int.ModEq]
  | succ fuel ih =>
    intro b e r he
    by_cases h0 : e = 0
    · subst h0; simp [mpz_powm_loop, Int.ModEq]
    · simp only [mpz_powm_loop, if_neg h0]
      have hlt : e / 2 < e := Nat.div_lt_self (by omega) (by decide)
      refine (ih _ (e / 2) _ (by omega)).trans ?_
      have hsq : (b * b % m) ^ (e / 2) ≡ (b * b) ^ (e / 2) [ZMOD m] :=
        (Int.mod_modEq (b * b) m).pow (e / 2)
      have hsplit : e = 2 * (e / 2) + e % 2 := (Nat.div_add_mod e 2).symm
      by_cases hodd : e % 2 = 1
      · rw [if_pos hodd]
        have h1 : r * b % m * (b * b % m) ^ (e / 2) ≡ r * b * (b * b) ^ (e / 2) [ZMOD m] :=
          (Int.mod_modEq (r * b) m).mul hsq
        refine h1.trans ?_
        have : r * b * (b * b) ^ (e / 2) = r * b ^ e := by
          conv_rhs => rw [hsplit, hodd, pow_add, pow_mul]
          ring
        rw [this]
      · rw [if_neg hodd]
        have heven : e % 2 = 0 := by omega
        have h1 : r * (b * b % m) ^ (e / 2) ≡ r * (b * b) ^ (e / 2) [ZMOD m] :=
          (Int.ModEq.refl r).mul hsq
        refine h1.trans ?_
        have : r * (b * b) ^ (e / 2) = r * b ^ e := by
          conv_rhs => rw [hsplit, heven, pow_add, pow_mul]
          ring
        rw [this]

theorem mpz_powm_loop_reduced (m : Int) : ∀ (fuel : Nat) (b : Int) (e : Nat) (r : Int),
    r % m = r → mpz_powm_loop m fuel b e r % m = mpz_powm_loop m fuel b e r := by
  intro fuel
  induction fuel with
  | zero => intro b e r hr; simpa [mpz_powm_loop] using hr
  | succ fuel ih =>
    intro b e r hr
    by_cases h0 : e = 0
    · subst h0; simpa [mpz_powm_loop] using hr
    · simp only [mpz_powm_loop, if_neg h0]
      apply ih
      by_cases hodd : e % 2 = 1
      · rw [if_pos hodd]; exact Int.emod_emod_of_dvd _ (dvd_refl m)
      · rw [if_neg hodd]; exact hr

/-- C15: for every `a`, every exponent `e >= 0` and every modulus `m != 0`,
`a.powm(e, m)` returns, and leaves in `a`, the value `(a ^ e) mod m`, which
lies in `[0, |m|)`. -/
theorem C15_powm_value (a e m : BigInt) (he : 0 ≤ e.data) (hm : m.data ≠ 0) :
    ∃ r : BigInt, powm a e m = .ok r ∧ r.data = (a.data ^ e.data.toNat) % m.data ∧
      0 ≤ r.data ∧ r.data < |m.data| := by
  have hval : mpz_powm_loop m.data e.data.toNat (a.data % m.data) e.data.toNat (1 % m.data)
      = (a.data ^ e.data.toNat) % m.data := by
    have h1 := mpz_powm_loop_modEq m.data e.data.toNat (a.data % m.data) e.data.toNat
      (1 % m.data) (le_refl _)
    have h2 := mpz_powm_loop_reduced m.data e.data.toNat (a.data % m.data) e.data.toNat
      (1 % m.data) (Int.emod_emod_of_dvd _ (dvd_refl m.data))
    have h3 : 1 % m.data * (a.data % m.data) ^ e.data.toNat ≡ 1 * a.data ^ e.data.toNat
        [ZMOD m.data] :=
      (Int.mod_modEq 1 m.data).mul ((Int.mod_modEq a.data m.data).pow _)
    rw [one_mul] at h3
    rw [← h2]
    exact h1.trans h3
  refine ⟨⟨(a.data ^ e.data.toNat) % m.data⟩, ?_, rfl, Int.emod_nonneg _ hm, Int.emod_lt _ hm⟩
  have he' : e.data ≥ 0 := he
  simp only [powm, mpz_powm, if_neg hm, if_pos he', Except.map, hval]

/-- C15 at `BigInt(4).powm(13, 497)`: the result renders in base 10 as `445`. -/
theorem C15_powm_value_witness :
    0 ≤ (ofInt 13).data ∧ (ofInt 497).data ≠ 0 ∧
    powm (ofInt 4) (ofInt 13) (ofInt 497) = .ok ⟨445⟩ ∧
    getString ⟨445⟩ 10 = some "445".toList ∧
    ∃ r : BigInt, powm (ofInt 4) (ofInt 13) (ofInt 497) = .ok r ∧
      r.data = ((ofInt 4).data ^ (ofInt 13).data.toNat) % (ofInt 497).data ∧
      0 ≤ r.data ∧ r.data < |(ofInt 497).data| :=
  ⟨by decide, by decide, by decide, by decide,
    C15_powm_value (ofInt 4) (ofInt 13) (ofInt 497) (by decide) (by decide)⟩

/-! ## Shifts -/

/-- C17: at `a = BigInt(1)` (one limb, of 64 or of 32 bits) and `n = 1`, `a` is
normalised and `a >> 1` is the single limb `0` with `_mp_size` still `1`: a
leading zero limb, not the empty magnitude, for the value zero; and
`(a >> 1) == 0` is false, for the `int` and for the `BigInt` zero, while
`floor(1 / 2^1) = 0`. -/
theorem C17_rshift_not_normalized :
    (mpz_struct.mk 1 [1]).normalized 64 ∧ (mpz_struct.mk 1 [1]).value 64 = 1 ∧
    op_shr_uint 64 ⟨1, [1]⟩ 1 = some ⟨1, [0]⟩ ∧ op_shr_uint 32 ⟨1, [1]⟩ 1 = some ⟨1, [0]⟩ ∧
    ¬ (mpz_struct.mk 1 [0]).normalized 64 ∧ (mpz_struct.mk 1 [0]).value 64 = 0 ∧
    op_eq_int_struct ⟨1, [0]⟩ 0 = false ∧ op_eq_struct ⟨1, [0]⟩ mpz_struct_zero = false ∧
    (1 : Int) / 2 ^ 1 = 0 ∧ op_eq_int_struct mpz_struct_zero 0 = true := by
  decide

theorem mpn_rshift_limbs_length (w c : Nat) : ∀ l : List Nat,
    (mpn_rshift_limbs w c l).length = l.length := by
  intro l
  induction l with
  | nil => rfl
  | cons x rest ih =>
    cases rest with
    | nil => rfl
    | cons y rest => simp only [mpn_rshift_limbs, List.length_cons] at ih ⊢; rw [ih]

/-- The arithmetic of one step of the right shift, with `P = 2^cnt` and
`Q = 2^(w - cnt)`. -/
theorem rshift_step_arith (P Q x y V : Nat) (hP : 0 < P) :
    (x + P * Q * (y + P * Q * V)) / P =
      (x / P + Q * (y % P)) + P * Q * ((y + P * Q * V) / P) := by
  have h1 : (x + P * Q * (y + P * Q * V)) / P = x / P + Q * (y + P * Q * V) := by
    rw [mul_assoc P Q, Nat.add_mul_div_left _ _ hP]
  have h2 : (y + P * Q * V) / P = y / P + Q * V := by
    rw [mul_assoc P Q, Nat.add_mul_div_left _ _ hP]
  have h3 : y % P + P * (y / P) = y := Nat.mod_add_div y P
  rw [h1, h2]
  conv_lhs => rw [← h3]
  ring

/-- The limbs that `mpn_rshift` writes denote the number divided by `2^cnt`,
rounded down. -/
theorem mpn_rshift_limbs_value (w c : Nat) (hc : c < w) : ∀ l : List Nat,
    (∀ x ∈ l, x < 2 ^ w) →
    limbs_value w (mpn_rshift_limbs w c l) = limbs_value w l / 2 ^ c := by
  have hW : 2 ^ w = 2 ^ c * 2 ^ (w - c) := by
    rw [← pow_add]; congr 1; omega
  have hP : 0 < 2 ^ c := Nat.two_pow_pos _
  intro l
  induction l with
  | nil => intro _; simp [mpn_rshift_limbs, limbs_value]
  | cons x rest ih =>
    intro hl
    cases rest with
    | nil =>
      simp [mpn_rshift_limbs, limbs_value, Nat.shiftRight_eq_div_pow]
    | cons y rest =>
      have hx : x < 2 ^ w := hl x (List.mem_cons_self _ _)
      have hx1 : x / 2 ^ c < 2 ^ (w - c) := by
        apply Nat.div_lt_of_lt_mul
        rw [← hW]; exact hx
      have hor : (x >>> c) ||| ((y <<< (w - c)) % 2 ^ w) =
          x / 2 ^ c + 2 ^ (w - c) * (y % 2 ^ c) := by
        rw [Nat.shiftLeft_eq, Nat.shiftRight_eq_div_pow]
        have hm : y * 2 ^ (w - c) % 2 ^ w = 2 ^ (w - c) * (y % 2 ^ c) := by
          rw [hW, mul_comm (2 ^ c), mul_comm y, Nat.mul_mod_mul_left]
        rw [hm, Nat.lor_comm, ← Nat.mul_add_lt_is_or hx1, Nat.add_comm]
      have ih2 := ih (fun z hz => hl z (List.mem_cons_of_mem _ hz))
      simp only [mpn_rshift_limbs, limbs_value] at ih2 ⊢
      rw [hor, ih2, hW]
      exact (rshift_step_arith (2 ^ c) (2 ^ (w - c)) x y (limbs_value w rest) hP).symm

/-- What `operator >>(BigInt, unsigned int)` does to a positive `a` for a count
`1 <= n < w`: the value becomes `floor(a / 2^n)`, `_mp_size` stays, and so the
comparison of the result with the `int` 0 is never true. -/
theorem op_shr_uint_positive (w : Nat) (a : mpz_struct) (n : Int)
    (hk : 1 ≤ a._mp_size) (hlen : a._mp_size ≤ a._mp_d.length)
    (hlimb : ∀ x ∈ a._mp_d, x < 2 ^ w) (hn1 : 1 ≤ n) (hnw : n < w) :
    ∃ r : mpz_struct, op_shr_uint w a n = some r ∧ r._mp_size = a._mp_size ∧
      r.value w = a.value w / 2 ^ n.toNat ∧ op_eq_int_struct r 0 = false := by
  have hcond : 1 ≤ a._mp_size ∧ a._mp_size ≤ a._mp_d.length ∧ 1 ≤ n ∧ n < w :=
    ⟨hk, hlen, hn1, hnw⟩
  have hkn : a._mp_size.natAbs = a._mp_size.toNat := by omega
  have hc : n.toNat < w := by omega
  have hnot : ¬ a._mp_size < 0 := by omega
  have htake : (a._mp_d.take a._mp_size.toNat).length = a._mp_size.toNat := by
    rw [List.length_take]; omega
  have hLlen : (mpn_rshift_limbs w n.toNat (a._mp_d.take a._mp_size.toNat)).length
      = a._mp_size.toNat := by
    rw [mpn_rshift_limbs_length, htake]
  have hLval := mpn_rshift_limbs_value w n.toNat hc (a._mp_d.take a._mp_size.toNat)
    (fun x hx => hlimb x (List.mem_of_mem_take hx))
  have hres : op_shr_uint w a n = some ⟨a._mp_size, mpn_rshift_limbs w n.toNat
      (a._mp_d.take a._mp_size.toNat) ++ a._mp_d.drop a._mp_size.toNat⟩ := by
    unfold op_shr_uint mpn_rshift; rw [if_pos hcond]; rfl
  refine ⟨_, hres, rfl, ?_, ?_⟩
  · unfold mpz_struct.value
    simp only [if_neg hnot, hkn]
    rw [List.take_left' hLlen, hLval]
    push_cast
    rfl
  · have h0 : a._mp_size ≠ 0 := by omega
    simp [op_eq_int_struct, mpz_cmp_si_struct, h0]

theorem mpn_lshift_limbs_length (w c : Nat) : ∀ (l : List Nat) (below : Nat),
    (mpn_lshift_limbs w c below l).length = l.length := by
  intro l
  induction l with
  | nil => intro below; rfl
  | cons x rest ih => intro below; simp [mpn_lshift_limbs, ih]

/-- The arithmetic of one step of the left shift, with `P = 2^cnt` and
`Q = 2^(w - cnt)`. -/
theorem lshift_step_arith (P Q x b V M : Nat) (hP : 0 < P) (hQ : 0 < Q) (hb : b < P * Q) :
    ((x + P * Q * V) * P + b / Q) % (P * Q * M) =
      (x * P % (P * Q) + b / Q) + P * Q * ((V * P + x / Q) % M) := by
  have hb1 : b / Q < P := by
    apply Nat.div_lt_of_lt_mul
    rw [mul_comm]; exact hb
  have hx : Q * (x / Q) + x % Q = x := Nat.div_add_mod x Q
  have ha : x % Q < Q := Nat.mod_lt x hQ
  have hmod : x * P % (P * Q) = P * (x % Q) := by
    rw [mul_comm x P, Nat.mul_mod_mul_left]
  have hF : P * (x % Q) + b / Q < P * Q := by
    have h1 : P * (x % Q) + P ≤ P * Q := by
      have : x % Q + 1 ≤ Q := ha
      calc P * (x % Q) + P = P * (x % Q + 1) := by ring
        _ ≤ P * Q := Nat.mul_le_mul_left P this
    omega
  have hX : (x + P * Q * V) * P + b / Q =
      (P * (x % Q) + b / Q) + P * Q * (x / Q + V * P) := by
    conv_lhs => rw [← hx]
    ring
  rw [hmod, hX, Nat.mod_mul, Nat.add_mul_mod_self_left, Nat.mod_eq_of_lt hF,
    Nat.add_mul_div_left _ _ (Nat.mul_pos hP hQ), Nat.div_eq_of_lt hF, Nat.zero_add,
    Nat.add_comm (x / Q) (V * P)]

/-- The limbs that `mpn_lshift` writes denote the low `w * n` bits of the
shifted number. -/
theorem mpn_lshift_limbs_value (w c : Nat) (hc : c < w) : ∀ (l : List Nat) (below : Nat),
    (∀ x ∈ l, x < 2 ^ w) → below < 2 ^ w →
    limbs_value w (mpn_lshift_limbs w c below l) =
      (limbs_value w l * 2 ^ c + below / 2 ^ (w - c)) % 2 ^ (w * l.length) := by
  have hW : 2 ^ w = 2 ^ c * 2 ^ (w - c) := by
    rw [← pow_add]; congr 1; omega
  have hP : 0 < 2 ^ c := Nat.two_pow_pos _
  have hQ : 0 < 2 ^ (w - c) := Nat.two_pow_pos _
  intro l
  induction l with
  | nil =>
    intro below _ _
    simp [mpn_lshift_limbs, limbs_value, Nat.mod_one]
  | cons x rest ih =>
    intro below hl hbelow
    have hx : x < 2 ^ w := hl x (List.mem_cons_self _ _)
    have hb1 : below / 2 ^ (w - c) < 2 ^ c := by
      apply Nat.div_lt_of_lt_mul
      rw [mul_comm, ← hW]; exact hbelow
    have hor : ((x <<< c) % 2 ^ w) ||| (below >>> (w - c)) =
        x * 2 ^ c % 2 ^ w + below / 2 ^ (w - c) := by
      rw [Nat.shiftLeft_eq, Nat.shiftRight_eq_div_pow]
      have hm : x * 2 ^ c % 2 ^ w = 2 ^ c * (x % 2 ^ (w - c)) := by
        rw [hW, mul_comm x (2 ^ c), Nat.mul_mod_mul_left]
      rw [hm]
      exact (Nat.mul_add_lt_is_or hb1 _).symm
    simp only [mpn_lshift_limbs, limbs_value, List.length_cons]
    rw [hor, ih x (fun y hy => hl y (List.mem_cons_of_mem _ hy)) hx]
    have hpow : 2 ^ (w * (rest.length + 1)) = 2 ^ c * 2 ^ (w - c) * 2 ^ (w * rest.length) := by
      rw [← hW, ← pow_add]; congr 1; ring
    have hbQ : below < 2 ^ c * 2 ^ (w - c) := by rw [← hW]; exact hbelow
    have key := lshift_step_arith (2 ^ c) (2 ^ (w - c)) x below (limbs_value w rest)
      (2 ^ (w * rest.length)) hP hQ hbQ
    rw [hpow, hW, key]

theorem to_uint_of_isUInt (n : Int) (hn : isUInt n) : to_uint n = n := by
  unfold isUInt UINT_MAX at hn
  unfold to_uint
  omega

/-- C19: for every positive `a` stored in `k = _mp_size` limbs of `w` bits and
every count `n` with `1 <= n < w`, `a << n` (and `a <<= n`) keeps `_mp_size`
and the number of limbs, and its value is `(a * 2^n) mod 2^(w * k)`: the bits
shifted past the top limb are dropped, and the value is `a * 2^n` exactly when
`a * 2^n < 2^(w * k)`. -/
theorem C19_lshift_keeps_limbs (w : Nat) (a : mpz_struct) (n : Int)
    (hk : 1 ≤ a._mp_size) (hlen : a._mp_size ≤ a._mp_d.length)
    (hlimb : ∀ x ∈ a._mp_d, x < 2 ^ w) (hn1 : 1 ≤ n) (hnw : n < w) (hnu : isUInt n) :
    ∃ r : mpz_struct, op_shl_uint w a n = some r ∧ op_shl_assign_uint w a n = some r ∧
      r._mp_size = a._mp_size ∧ r._mp_d.length = a._mp_d.length ∧
      r.value w = (a.value w * 2 ^ n.toNat) % 2 ^ (w * a._mp_size.toNat) ∧
      (r.value w = a.value w * 2 ^ n.toNat ↔
        a.value w * 2 ^ n.toNat < 2 ^ (w * a._mp_size.toNat)) := by
  have hcond : 1 ≤ a._mp_size ∧ a._mp_size ≤ a._mp_d.length ∧ 1 ≤ n ∧ n < w :=
    ⟨hk, hlen, hn1, hnw⟩
  have hkn : a._mp_size.natAbs = a._mp_size.toNat := by omega
  have hklen : a._mp_size.toNat ≤ a._mp_d.length := by omega
  have hc : n.toNat < w := by omega
  have hnot : ¬ a._mp_size < 0 := by omega
  have htake : (a._mp_d.take a._mp_size.toNat).length = a._mp_size.toNat := by
    rw [List.length_take]; omega
  have hLlen : (mpn_lshift_limbs w n.toNat 0 (a._mp_d.take a._mp_size.toNat)).length
      = a._mp_size.toNat := by
    rw [mpn_lshift_limbs_length, htake]
  have hLval := mpn_lshift_limbs_value w n.toNat hc (a._mp_d.take a._mp_size.toNat) 0
    (fun x hx => hlimb x (List.mem_of_mem_take hx)) (Nat.two_pow_pos w)
  rw [Nat.zero_div, Nat.add_zero, htake] at hLval
  have hshift : mpn_lshift w a._mp_d a._mp_size n =
      some (mpn_lshift_limbs w n.toNat 0 (a._mp_d.take a._mp_size.toNat) ++
        a._mp_d.drop a._mp_size.toNat) := by
    unfold mpn_lshift; rw [if_pos hcond]
  have hav : a.value w = (limbs_value w (a._mp_d.take a._mp_size.toNat) : Int) := by
    unfold mpz_struct.value; rw [if_neg hnot, hkn]
  have hrv : (mpz_struct.mk a._mp_size (mpn_lshift_limbs w n.toNat 0
      (a._mp_d.take a._mp_size.toNat) ++ a._mp_d.drop a._mp_size.toNat)).value w =
      ((limbs_value w (a._mp_d.take a._mp_size.toNat) * 2 ^ n.toNat %
        2 ^ (w * a._mp_size.toNat) : Nat) : Int) := by
    unfold mpz_struct.value
    simp only [if_neg hnot, hkn]
    rw [List.take_left' hLlen, hLval]
  have hres : op_shl_uint w a n = some ⟨a._mp_size, mpn_lshift_limbs w n.toNat 0
      (a._mp_d.take a._mp_size.toNat) ++ a._mp_d.drop a._mp_size.toNat⟩ := by
    unfold op_shl_uint; rw [to_uint_of_isUInt n hnu, hshift]; rfl
  have hres2 : op_shl_assign_uint w a n = some ⟨a._mp_size, mpn_lshift_limbs w n.toNat 0
      (a._mp_d.take a._mp_size.toNat) ++ a._mp_d.drop a._mp_size.toNat⟩ := by
    unfold op_shl_assign_uint; rw [to_uint_of_isUInt n hnu, hshift]; rfl
  refine ⟨_, hres, hres2, rfl, ?_, ?_, ?_⟩
  · simp only [List.length_append, hLlen, List.length_drop]
    omega
  · rw [hrv, hav]
    push_cast
    rfl
  · rw [hrv, hav]
    have hN : 0 < 2 ^ (w * a._mp_size.toNat) := Nat.two_pow_pos _
    have hiff : limbs_value w (a._mp_d.take a._mp_size.toNat) * 2 ^ n.toNat %
        2 ^ (w * a._mp_size.toNat) = limbs_value w (a._mp_d.take a._mp_size.toNat) * 2 ^ n.toNat ↔
        limbs_value w (a._mp_d.take a._mp_size.toNat) * 2 ^ n.toNat <
          2 ^ (w * a._mp_size.toNat) := by
      constructor
      · intro h; rw [← h]; exact Nat.mod_lt _ hN
      · intro h; exact Nat.mod_eq_of_lt h
    exact_mod_cast hiff

/-- C19 at `a = 2^63 + 1` in one 64-bit limb and `n = 1`: `a << 1` is the one
limb `2`, the top bit being dropped. -/
theorem C19_lshift_keeps_limbs_witness :
    op_shl_uint 64 ⟨1, [9223372036854775809]⟩ 1 = some ⟨1, [2]⟩ ∧
    ∃ r : mpz_struct, op_shl_uint 64 ⟨1, [9223372036854775809]⟩ 1 = some r ∧
      op_shl_assign_uint 64 ⟨1, [9223372036854775809]⟩ 1 = some r ∧
      r._mp_size = (mpz_struct.mk 1 [9223372036854775809])._mp_size ∧
      r._mp_d.length = (mpz_struct.mk 1 [9223372036854775809])._mp_d.length ∧
      r.value 64 = ((mpz_struct.mk 1 [9223372036854775809]).value 64 * 2 ^ (1 : Int).toNat) %
        2 ^ (64 * (mpz_struct.mk 1 [9223372036854775809])._mp_size.toNat) ∧
      (r.value 64 = (mpz_struct.mk 1 [9223372036854775809]).value 64 * 2 ^ (1 : Int).toNat ↔
        (mpz_struct.mk 1 [9223372036854775809]).value 64 * 2 ^ (1 : Int).toNat <
          2 ^ (64 * (mpz_struct.mk 1 [9223372036854775809])._mp_size.toNat)) :=
  ⟨by decide, C19_lshift_keeps_limbs 64 ⟨1, [9223372036854775809]⟩ 1 (by decide) (by decide)
    (by decide) (by decide) (by decide) (by decide)⟩

end QtBigInt
